import Mathlib

/-!
Verification of the decompal report pipeline: the content-addressed report
serializer (`common/serialize.go`), the database insert/fetch layer
(`database/reports.go` against the SQLite schema in `database/migrations`),
the artifact ingester (`objdiff/artifacts.go`), the streaming ZIP reader
(`zipstream/zipstream.go`), the legacy report conversion (`objdiff/legacy.go`)
and the measure aggregation (`common/report.go`).

Bytes are modelled as `List Nat` (one natural per byte).  External libraries
(protobuf, zstd, BLAKE3) are modelled as explicit function bundles; the laws
they are known to satisfy (round-trip of marshal/unmarshal, round-trip of
compress/decompress) appear as hypotheses of the theorems that need them.
-/

namespace Decompal

/-- A byte string: one natural number per byte. -/
abbrev Bytes := List Nat

/-- Reduction of `Except` bind on a success value. -/
theorem bind_ok_eq {ε α β : Type} (a : α) (f : α → Except ε β) :
    (Except.ok a >>= f) = f a := rfl

/-- Reduction of `Except` bind on an error value. -/
theorem bind_error_eq {ε α β : Type} (e : ε) (f : α → Except ε β) :
    ((Except.error e : Except ε α) >>= f) = Except.error e := rfl

/-- Reduction of `Except` map on a success value. -/
theorem map_ok_eq {ε α β : Type} (g : α → β) (a : α) :
    (g <$> (Except.ok a : Except ε α)) = Except.ok (g a) := rfl

/-- Reduction of `Except` map on an error value. -/
theorem map_error_eq {ε α β : Type} (g : α → β) (e : ε) :
    (g <$> (Except.error e : Except ε α)) = Except.error e := rfl

/-- Reduction of `Except.mapError` on a success value. -/
theorem mapError_ok_eq {ε ε' α : Type} (g : ε → ε') (a : α) :
    (Except.ok a : Except ε α).mapError g = Except.ok a := rfl

/-- Reduction of `Except.mapError` on an error value. -/
theorem mapError_error_eq {ε ε' α : Type} (g : ε → ε') (e : ε) :
    (Except.error e : Except ε α).mapError g = Except.error (g e) := rfl

/-! ## Model of the external libraries used by `common/serialize.go` -/

/-- Model of the protobuf codec for one message type (`proto.Marshal` with
`Deterministic: true`, and `proto.Unmarshal`).  Both can fail in Go; failures
carry a message string. -/
structure ProtoCodec (α : Type) where
  marshal : α → Except String Bytes
  unmarshal : Bytes → Except String α

/-- Model of the zstd library (`github.com/klauspost/compress/zstd`):
`encode` is `encoder.EncodeAll` (never fails in the source: `compress` always
returns a nil error); `isFrame` models `zstd.Header.Decode` succeeding on the
input (the blob starts with a valid zstd frame header); `decode` is
`decoder.DecodeAll`, which can fail. -/
structure Zstd where
  encode : Bytes → Bytes
  isFrame : Bytes → Bool
  decode : Bytes → Except String Bytes

/-- Model of `github.com/zeebo/blake3`: `sum512` is `blake3.Sum512`, a
64-byte digest of the input. -/
structure Blake3 where
  sum512 : Bytes → Bytes

/-- Modelled from the spec: BLAKE3 is an extendable-output function, so its
256-bit digest equals the first 32 bytes of its 512-bit digest.  The BLAKE3
library itself is not part of this repository; this definition records the
spec's parenthetical "the upper 32 bytes of BLAKE3-512 ... equivalently
BLAKE3-256". -/
def Blake3.sum256 (h : Blake3) (b : Bytes) : Bytes :=
  (h.sum512 b).take 32

/-! ## The report types (`common/serialize.go`, `common/report.pb.go`)

The protobuf-generated `Report` message is produced from an external
`report.proto` (see `genproto.sh`); `Report.Serialize` touches exactly its
`Measures` and `Units` fields, so the report is modelled as that pair, with
the measures and unit payloads kept as opaque type parameters. -/

/-- The in-memory report: a measures record plus an ordered list of units. -/
structure Report (M U : Type) where
  measures : M
  units : List U
deriving DecidableEq, Repr

/-- `common.SerializedReportUnit`: a 32-byte content key plus the stored
(usually zstd-compressed) unit blob. -/
structure SerializedReportUnit where
  key : Bytes
  data : Bytes
deriving DecidableEq, Repr

/-- `common.SerializedReport`: the encoded sparse header plus the unit blobs
in report order. -/
structure SerializedReport where
  data : Bytes
  units : List SerializedReportUnit
deriving DecidableEq, Repr

/-! ## `Report.Serialize` (common/serialize.go lines 297-328) -/

variable {M U : Type}

/-- The per-unit body of the `for _, unit := range report.Units` loop of
`Report.Serialize`: marshal the unit, hash the raw bytes with BLAKE3-512,
compress them, and store the first 32 bytes of the hash as the key
(`copy(serialized.Key[:], hash[:])` into a `[32]byte`). -/
def serializeUnit (pcU : ProtoCodec U) (h : Blake3) (z : Zstd) (unit : U) :
    Except String SerializedReportUnit := do
  let bytes ← pcU.marshal unit
  let hash := h.sum512 bytes
  let compressed := z.encode bytes
  pure ⟨hash.take 32, compressed⟩

/-- The serialization loop over the report's units, in original order. -/
def serializeUnits (pcU : ProtoCodec U) (h : Blake3) (z : Zstd) :
    List U → Except String (List SerializedReportUnit)
  | [] => pure []
  | u :: us => do
    let su ← serializeUnit pcU h z u
    let rest ← serializeUnits pcU h z us
    pure (su :: rest)

/-- `Report.Serialize`: marshal the report with its `Units` emptied as the
header blob, then serialize every unit in order. -/
def serializeGo (pcR : ProtoCodec (Report M U)) (pcU : ProtoCodec U)
    (h : Blake3) (z : Zstd) (report : Report M U) :
    Except String SerializedReport := do
  let sparseReport : Report M U := ⟨report.measures, []⟩
  let data ← pcR.marshal sparseReport
  let units ← serializeUnits pcU h z report.units
  pure ⟨data, units⟩

/-! ## `SerializedReport.Deserialize` (common/serialize.go lines 330-358) -/

/-- `decompress` (common/serialize.go lines 369-385): if the blob does not
start with a valid zstd frame header, assume it is not compressed and return
it unchanged; otherwise run the zstd decoder. -/
def decompressGo (z : Zstd) (b : Bytes) : Except String Bytes :=
  if z.isFrame b then z.decode b else pure b

/-- The errors `SerializedReport.Deserialize` can return, one constructor per
`return nil, err` site; `keyMismatch` is `errors.New("unit key mismatch")`. -/
inductive DeserializeError
  | headerUnmarshal (msg : String)
  | decompressFail (msg : String)
  | keyMismatch
  | unitUnmarshal (msg : String)
deriving DecidableEq, Repr

/-- The per-unit body of the `for _, unit := range serialized.Units` loop of
`Deserialize`: decompress, recompute the BLAKE3 key over the decompressed
bytes, fail with the key-mismatch error if it differs from the stored key,
otherwise unmarshal the unit. -/
def deserializeUnit (pcU : ProtoCodec U) (h : Blake3) (z : Zstd)
    (su : SerializedReportUnit) : Except DeserializeError U := do
  let bytes ← (decompressGo z su.data).mapError DeserializeError.decompressFail
  let key := (h.sum512 bytes).take 32
  if key = su.key then
    (pcU.unmarshal bytes).mapError DeserializeError.unitUnmarshal
  else
    throw DeserializeError.keyMismatch

/-- The deserialization loop over the stored units, in stored order. -/
def deserializeUnits (pcU : ProtoCodec U) (h : Blake3) (z : Zstd) :
    List SerializedReportUnit → Except DeserializeError (List U)
  | [] => pure []
  | su :: sus => do
    let u ← deserializeUnit pcU h z su
    let rest ← deserializeUnits pcU h z sus
    pure (u :: rest)

/-- `SerializedReport.Deserialize`: unmarshal the header blob, then process
every stored unit in order, appending to the report's `Units`. -/
def deserializeGo (pcR : ProtoCodec (Report M U)) (pcU : ProtoCodec U)
    (h : Blake3) (z : Zstd) (serialized : SerializedReport) :
    Except DeserializeError (Report M U) := do
  let sparseReport ← (pcR.unmarshal serialized.data).mapError
    DeserializeError.headerUnmarshal
  let units ← deserializeUnits pcU h z serialized.units
  pure ⟨sparseReport.measures, units⟩

/-! ## Round-trip and key lemmas for the serializer -/

/-- One serialized unit deserializes back to its source unit, given the zstd
and protobuf round-trip laws for that unit. -/
theorem deserializeUnit_of_serializeUnit (pcU : ProtoCodec U) (h : Blake3)
    (z : Zstd) (u : U) (su : SerializedReportUnit)
    (hz1 : ∀ b, z.isFrame (z.encode b) = true)
    (hz2 : ∀ b, z.decode (z.encode b) = Except.ok b)
    (hU : ∀ bs, pcU.marshal u = Except.ok bs → pcU.unmarshal bs = Except.ok u)
    (hser : serializeUnit pcU h z u = Except.ok su) :
    deserializeUnit pcU h z su = Except.ok u := by
  cases hm : pcU.marshal u with
  | error e =>
    simp [serializeUnit, hm, bind_error_eq, bind_ok_eq, map_error_eq] at hser
  | ok bytes =>
    simp [serializeUnit, hm, bind_ok_eq, map_ok_eq] at hser
    subst hser
    simp [deserializeUnit, decompressGo, hz1, hz2, mapError_ok_eq, bind_ok_eq,
      hU bytes hm]

/-- The deserialization loop inverts the serialization loop, unit by unit,
preserving order. -/
theorem deserializeUnits_of_serializeUnits (pcU : ProtoCodec U) (h : Blake3)
    (z : Zstd)
    (hz1 : ∀ b, z.isFrame (z.encode b) = true)
    (hz2 : ∀ b, z.decode (z.encode b) = Except.ok b) :
    ∀ us sus,
      (∀ u ∈ us, ∀ bs, pcU.marshal u = Except.ok bs →
        pcU.unmarshal bs = Except.ok u) →
      serializeUnits pcU h z us = Except.ok sus →
      deserializeUnits pcU h z sus = Except.ok us := by
  intro us
  induction us with
  | nil =>
    intro sus _ hser
    simp [serializeUnits, pure, Except.pure] at hser
    subst hser
    simp [deserializeUnits, pure, Except.pure]
  | cons u us ih =>
    intro sus hU hser
    cases hsu : serializeUnit pcU h z u with
    | error e => simp [serializeUnits, hsu, bind_error_eq] at hser
    | ok su =>
      cases hrest : serializeUnits pcU h z us with
      | error e => simp [serializeUnits, hsu, hrest, bind_ok_eq, bind_error_eq, map_error_eq] at hser
      | ok rest =>
        simp [serializeUnits, hsu, hrest, bind_ok_eq, map_ok_eq] at hser
        subst hser
        have hu := deserializeUnit_of_serializeUnit pcU h z u su hz1 hz2
          (fun bs hbs => hU u (List.mem_cons_self u us) bs hbs) hsu
        have hus := ih rest
          (fun v hv bs hbs => hU v (List.mem_cons_of_mem u hv) bs hbs) hrest
        simp [deserializeUnits, hu, hus, bind_ok_eq, map_ok_eq]

/-- C1: For every report R, deserializing the serialization of R yields a
report structurally equal to R, with the Units list preserved in its original
order, given the protobuf round-trip law for the header and the units and the
zstd round-trip law. -/
theorem c1_deserialize_serialize_roundtrip
    (pcR : ProtoCodec (Report M U)) (pcU : ProtoCodec U) (h : Blake3)
    (z : Zstd) (R : Report M U) (sr : SerializedReport)
    (hz1 : ∀ b, z.isFrame (z.encode b) = true)
    (hz2 : ∀ b, z.decode (z.encode b) = Except.ok b)
    (hR : ∀ bs, pcR.marshal ⟨R.measures, []⟩ = Except.ok bs →
      pcR.unmarshal bs = Except.ok ⟨R.measures, []⟩)
    (hU : ∀ u ∈ R.units, ∀ bs, pcU.marshal u = Except.ok bs →
      pcU.unmarshal bs = Except.ok u)
    (hser : serializeGo pcR pcU h z R = Except.ok sr) :
    deserializeGo pcR pcU h z sr = Except.ok R := by
  cases hm : pcR.marshal ⟨R.measures, []⟩ with
  | error e => simp [serializeGo, hm, bind_error_eq] at hser
  | ok data =>
    cases hus : serializeUnits pcU h z R.units with
    | error e => simp [serializeGo, hm, hus, bind_ok_eq, bind_error_eq, map_error_eq] at hser
    | ok sus =>
      simp [serializeGo, hm, hus, bind_ok_eq, map_ok_eq] at hser
      subst hser
      have hdr := hR data hm
      have hunits := deserializeUnits_of_serializeUnits pcU h z hz1 hz2
        R.units sus hU hus
      simp [deserializeGo, hdr, hunits, mapError_ok_eq, bind_ok_eq, map_ok_eq]

/-! ## Concrete instantiations used by the witnesses -/

/-- A toy protobuf codec for `Nat` payloads: a unit is encoded as the
single-element byte list holding it. -/
def natCodec : ProtoCodec Nat where
  marshal := fun n => Except.ok [n]
  unmarshal := fun bs =>
    match bs with
    | [n] => Except.ok n
    | _ => Except.error "bad unit encoding"

/-- A toy protobuf codec for `Report Nat Nat`: measures first, then units. -/
def natReportCodec : ProtoCodec (Report Nat Nat) where
  marshal := fun r => Except.ok (r.measures :: r.units)
  unmarshal := fun bs =>
    match bs with
    | m :: us => Except.ok ⟨m, us⟩
    | [] => Except.error "bad report encoding"

/-- The four zstd frame magic bytes 0x28 0xB5 0x2F 0xFD. -/
def zstdMagic : Bytes := [40, 181, 47, 253]

/-- A toy zstd model: prepend the frame magic; a blob is a frame iff it
starts with the magic; decoding strips the magic. -/
def zstdModel : Zstd where
  encode := fun b => 40 :: 181 :: 47 :: 253 :: b
  isFrame := fun b => b.take 4 == zstdMagic
  decode := fun b =>
    if b.take 4 = zstdMagic then Except.ok (b.drop 4)
    else Except.error "not a zstd frame"

/-- A toy 64-byte digest function standing in for `blake3.Sum512`. -/
def blake3Model : Blake3 where
  sum512 := fun b => (List.range 64).map (fun i => (b.sum + b.length + i) % 256)

/-- The concrete report used by the serializer witnesses. -/
def c1Report : Report Nat Nat := ⟨7, [1, 2]⟩

/-- The serialization of `c1Report` under the toy codecs. -/
def c1Serialized : SerializedReport :=
  ⟨[7],
   [⟨(blake3Model.sum512 [1]).take 32, zstdModel.encode [1]⟩,
    ⟨(blake3Model.sum512 [2]).take 32, zstdModel.encode [2]⟩]⟩

/-- Witness for C1 at a concrete two-unit report. -/
theorem c1_deserialize_serialize_roundtrip_witness :
    deserializeGo natReportCodec natCodec blake3Model zstdModel c1Serialized =
      Except.ok c1Report :=
  c1_deserialize_serialize_roundtrip natReportCodec natCodec blake3Model
    zstdModel c1Report c1Serialized
    (fun b => by simp [zstdModel, zstdMagic])
    (fun b => by simp [zstdModel, zstdMagic])
    (fun bs hbs => by
      simp [natReportCodec, c1Report] at hbs
      subst hbs
      rfl)
    (fun u _ bs hbs => by
      simp [natCodec] at hbs
      subst hbs
      rfl)
    (by rfl)

/-! ## Key-mismatch detection (C2) -/

/-- A unit that deserializes successfully has a stored key equal to the
BLAKE3 key recomputed over its decompressed bytes. -/
theorem deserializeUnit_ok_key (pcU : ProtoCodec U) (h : Blake3) (z : Zstd)
    (su : SerializedReportUnit) (u : U)
    (hok : deserializeUnit pcU h z su = Except.ok u) :
    ∃ bytes, decompressGo z su.data = Except.ok bytes ∧
      (h.sum512 bytes).take 32 = su.key := by
  cases hd : decompressGo z su.data with
  | error e => simp [deserializeUnit, hd, mapError_error_eq, bind_error_eq] at hok
  | ok bytes =>
    refine ⟨bytes, rfl, ?_⟩
    by_cases hk : (h.sum512 bytes).take 32 = su.key
    · exact hk
    · simp [deserializeUnit, hd, mapError_ok_eq, bind_ok_eq, hk, throw,
        throwThe, MonadExceptOf.throw] at hok

/-- A successful run of the deserialization loop deserializes every stored
unit successfully. -/
theorem deserializeUnits_ok_each (pcU : ProtoCodec U) (h : Blake3) (z : Zstd) :
    ∀ sus us, deserializeUnits pcU h z sus = Except.ok us →
      ∀ su ∈ sus, ∃ u, deserializeUnit pcU h z su = Except.ok u := by
  intro sus
  induction sus with
  | nil => intro us _ su hsu; simp at hsu
  | cons su' sus ih =>
    intro us hok su hsu
    cases hu : deserializeUnit pcU h z su' with
    | error e => simp [deserializeUnits, hu, bind_error_eq] at hok
    | ok u' =>
      cases hrest : deserializeUnits pcU h z sus with
      | error e =>
        simp [deserializeUnits, hu, hrest, bind_ok_eq, bind_error_eq,
          map_error_eq] at hok
      | ok rest =>
        rcases List.mem_cons.mp hsu with hsu | hsu
        · exact ⟨u', hsu ▸ hu⟩
        · exact ih rest hrest su hsu

/-- If a prefix of the stored units deserializes fine and the next unit
fails, the whole loop fails with that unit's error. -/
theorem deserializeUnits_append_error (pcU : ProtoCodec U) (h : Blake3)
    (z : Zstd) (su : SerializedReportUnit) (post : List SerializedReportUnit)
    (e : DeserializeError) :
    ∀ pre us, deserializeUnits pcU h z pre = Except.ok us →
      deserializeUnit pcU h z su = Except.error e →
      deserializeUnits pcU h z (pre ++ su :: post) = Except.error e := by
  intro pre
  induction pre with
  | nil =>
    intro us _ herr
    simp [deserializeUnits, herr, bind_error_eq]
  | cons p pre ih =>
    intro us hok herr
    cases hp : deserializeUnit pcU h z p with
    | error e' => simp [deserializeUnits, hp, bind_error_eq] at hok
    | ok up =>
      cases hrest : deserializeUnits pcU h z pre with
      | error e' =>
        simp [deserializeUnits, hp, hrest, bind_ok_eq, bind_error_eq,
          map_error_eq] at hok
      | ok rest =>
        simp [deserializeUnits, List.cons_append, hp, bind_ok_eq,
          ih rest hrest herr, bind_error_eq, map_error_eq]

/-- C2: Deserialization checks the recomputed BLAKE3 key of every stored
unit against its stored key.  First conjunct: a successful deserialization
implies every stored unit's key equals the key recomputed over its
decompressed bytes, so a wrong report is never silently returned.  Second
conjunct: if the header decodes, some prefix of the stored units processes
cleanly, and the next unit decompresses to bytes whose recomputed key
differs from its stored key, the whole operation fails with the
key-mismatch error. -/
theorem c2_key_mismatch_detection (pcR : ProtoCodec (Report M U))
    (pcU : ProtoCodec U) (h : Blake3) (z : Zstd) (sr : SerializedReport) :
    (∀ R, deserializeGo pcR pcU h z sr = Except.ok R →
      ∀ su ∈ sr.units, ∃ bytes, decompressGo z su.data = Except.ok bytes ∧
        (h.sum512 bytes).take 32 = su.key) ∧
    (∀ pre su post hdr us bytes, sr.units = pre ++ su :: post →
      pcR.unmarshal sr.data = Except.ok hdr →
      deserializeUnits pcU h z pre = Except.ok us →
      decompressGo z su.data = Except.ok bytes →
      (h.sum512 bytes).take 32 ≠ su.key →
      deserializeGo pcR pcU h z sr = Except.error DeserializeError.keyMismatch) := by
  constructor
  · intro R hok su hsu
    cases hm : pcR.unmarshal sr.data with
    | error e => simp [deserializeGo, hm, mapError_error_eq, bind_error_eq] at hok
    | ok sparse =>
      cases hus : deserializeUnits pcU h z sr.units with
      | error e =>
        simp [deserializeGo, hm, hus, mapError_ok_eq, bind_ok_eq,
          bind_error_eq, map_error_eq] at hok
      | ok us =>
        obtain ⟨u, hu⟩ := deserializeUnits_ok_each pcU h z sr.units us hus su hsu
        exact deserializeUnit_ok_key pcU h z su u hu
  · intro pre su post hdr us bytes hsplit hm hpre hd hk
    have herr : deserializeUnit pcU h z su = Except.error DeserializeError.keyMismatch := by
      simp [deserializeUnit, hd, mapError_ok_eq, bind_ok_eq, hk, throw,
        throwThe, MonadExceptOf.throw]
    have hloop := deserializeUnits_append_error pcU h z su post
      DeserializeError.keyMismatch pre us hpre herr
    simp [deserializeGo, hm, hsplit, mapError_ok_eq, bind_ok_eq, hloop,
      bind_error_eq, map_error_eq]

/-- A corrupted serialized report: the stored key of the single unit does
not match the BLAKE3 key of its decompressed bytes. -/
def c2Corrupted : SerializedReport :=
  ⟨[7], [⟨[9], zstdModel.encode [5]⟩]⟩

/-- Witness for C2: fetching the corrupted report fails with the
key-mismatch error. -/
theorem c2_key_mismatch_detection_witness :
    deserializeGo natReportCodec natCodec blake3Model zstdModel c2Corrupted =
      Except.error DeserializeError.keyMismatch :=
  (c2_key_mismatch_detection natReportCodec natCodec blake3Model zstdModel
      c2Corrupted).2
    [] ⟨[9], zstdModel.encode [5]⟩ [] ⟨7, []⟩ [] [5] rfl (by rfl) (by rfl)
    (by rfl) (by decide)

/-! ## Content-address keys (C3) -/

/-- Each serialized unit's key is the 32-byte truncation of the BLAKE3-512
digest of its uncompressed deterministic encoding, and its stored blob is the
zstd compression of those same bytes. -/
theorem serializeUnits_keys (pcU : ProtoCodec U) (h : Blake3) (z : Zstd) :
    ∀ us sus, serializeUnits pcU h z us = Except.ok sus →
      sus.length = us.length ∧
      ∀ p ∈ us.zip sus, ∃ bytes,
        pcU.marshal p.1 = Except.ok bytes ∧
        p.2.key = (h.sum512 bytes).take 32 ∧
        p.2.data = z.encode bytes := by
  intro us
  induction us with
  | nil =>
    intro sus hser
    simp [serializeUnits, pure, Except.pure] at hser
    subst hser
    simp
  | cons u us ih =>
    intro sus hser
    cases hm : pcU.marshal u with
    | error e => simp [serializeUnits, serializeUnit, hm, bind_error_eq] at hser
    | ok bytes =>
      cases hrest : serializeUnits pcU h z us with
      | error e =>
        simp [serializeUnits, serializeUnit, hm, hrest, bind_ok_eq,
          bind_error_eq, map_error_eq] at hser
      | ok rest =>
        simp [serializeUnits, serializeUnit, hm, hrest, bind_ok_eq,
          map_ok_eq] at hser
        subst hser
        obtain ⟨hlen, hall⟩ := ih rest hrest
        refine ⟨by simp [hlen], ?_⟩
        intro p hp
        rcases List.mem_cons.mp hp with hp | hp
        · subst hp
          exact ⟨bytes, hm, rfl, rfl⟩
        · exact hall p hp

/-- C3: For every unit of a serialized report, the stored content-address
key equals the first 32 bytes of the BLAKE3-512 digest of the unit's
deterministic uncompressed encoding — equivalently its BLAKE3-256 digest —
computed on the bytes that are then zstd-compressed; hence two logically
equal units always produce the same key. -/
theorem c3_unit_content_key (pcR : ProtoCodec (Report M U))
    (pcU : ProtoCodec U) (h : Blake3) (z : Zstd) (R : Report M U)
    (sr : SerializedReport)
    (hser : serializeGo pcR pcU h z R = Except.ok sr) :
    sr.units.length = R.units.length ∧
    (∀ p ∈ R.units.zip sr.units, ∃ bytes,
      pcU.marshal p.1 = Except.ok bytes ∧
      p.2.key = (h.sum512 bytes).take 32 ∧
      p.2.key = h.sum256 bytes ∧
      p.2.data = z.encode bytes) ∧
    (∀ p ∈ R.units.zip sr.units, ∀ q ∈ R.units.zip sr.units,
      p.1 = q.1 → p.2.key = q.2.key) := by
  have hunits : serializeUnits pcU h z R.units = Except.ok sr.units := by
    cases hm : pcR.marshal ⟨R.measures, []⟩ with
    | error e => simp [serializeGo, hm, bind_error_eq] at hser
    | ok data =>
      cases hus : serializeUnits pcU h z R.units with
      | error e =>
        simp [serializeGo, hm, hus, bind_ok_eq, bind_error_eq,
          map_error_eq] at hser
      | ok sus =>
        simp [serializeGo, hm, hus, bind_ok_eq, map_ok_eq] at hser
        rw [← hser]
  obtain ⟨hlen, hall⟩ := serializeUnits_keys pcU h z R.units sr.units hunits
  refine ⟨hlen, ?_, ?_⟩
  · intro p hp
    obtain ⟨bytes, hm, hkey, hdata⟩ := hall p hp
    exact ⟨bytes, hm, hkey, by simp [Blake3.sum256, hkey], hdata⟩
  · intro p hp q hq hpq
    obtain ⟨bp, hmp, hkp, _⟩ := hall p hp
    obtain ⟨bq, hmq, hkq, _⟩ := hall q hq
    rw [hpq] at hmp
    rw [hmq] at hmp
    cases hmp
    rw [hkp, hkq]

/-- Witness for C3 at the concrete two-unit report. -/
theorem c3_unit_content_key_witness :
    c1Serialized.units.length = c1Report.units.length ∧
    (∀ p ∈ c1Report.units.zip c1Serialized.units, ∃ bytes,
      natCodec.marshal p.1 = Except.ok bytes ∧
      p.2.key = (blake3Model.sum512 bytes).take 32 ∧
      p.2.key = blake3Model.sum256 bytes ∧
      p.2.data = zstdModel.encode bytes) ∧
    (∀ p ∈ c1Report.units.zip c1Serialized.units,
      ∀ q ∈ c1Report.units.zip c1Serialized.units,
      p.1 = q.1 → p.2.key = q.2.key) :=
  c3_unit_content_key natReportCodec natCodec blake3Model zstdModel
    c1Report c1Serialized (by rfl)

/-! ## The junction-table insert of `DB.InsertReport` (C4)

`database/reports.go` lines 41-51 run, for each unit index `idx`:

  INSERT INTO report_report_units (report_id, report_unit_id, unit_index)
  VALUES (?, ?, ?) ON CONFLICT (report_id, report_unit_id) DO NOTHING

against the `report_report_units` table, whose primary key is
`(report_id, report_unit_id)` in schema v1 (migration 1) and
`(report_id, report_unit_id, unit_index)` in schema v2 (migration 2, which
drops and recreates the table; its two `CREATE INDEX` statements are
non-unique). -/

/-- A row of the `report_report_units` junction table. -/
structure JunctionRow where
  reportId : Int
  reportUnitId : Bytes
  unitIndex : Nat
deriving DecidableEq, Repr

/-- A column set of `report_report_units` that an `ON CONFLICT` clause can
name as its conflict target. -/
inductive JunctionCols
  | pairReportUnit
  | tripleReportUnitIndex
deriving DecidableEq, Repr

/-- The unique constraints of `report_report_units` in schema v1: the
primary key `(report_id, report_unit_id)`. -/
def v1UniqueConstraints : List JunctionCols := [JunctionCols.pairReportUnit]

/-- The unique constraints of `report_report_units` in schema v2: the
primary key `(report_id, report_unit_id, unit_index)`; the two indexes the
migration recreates are non-unique. -/
def v2UniqueConstraints : List JunctionCols :=
  [JunctionCols.tripleReportUnitIndex]

/-- Whether two rows agree on a column set. -/
def rowsAgree : JunctionCols → JunctionRow → JunctionRow → Bool
  | JunctionCols.pairReportUnit, r, s =>
    r.reportId == s.reportId && r.reportUnitId == s.reportUnitId
  | JunctionCols.tripleReportUnitIndex, r, s =>
    r.reportId == s.reportId && r.reportUnitId == s.reportUnitId &&
      r.unitIndex == s.unitIndex

/-- The SQL errors this model distinguishes. -/
inductive SqlError
  | conflictTargetMismatch
deriving DecidableEq, Repr

/-- Modelled from SQLite's documented upsert semantics (checked against
SQLite 3.40): `INSERT ... ON CONFLICT (target) DO NOTHING` requires the
conflict target to match a PRIMARY KEY or unique index of the table,
otherwise the statement itself fails with "ON CONFLICT clause does not match
any PRIMARY KEY or UNIQUE constraint"; when the target matches, a new row
colliding with an existing row on the target columns is silently skipped. -/
def insertOnConflictDoNothing (uniq : List JunctionCols)
    (target : JunctionCols) (tbl : List JunctionRow) (row : JunctionRow) :
    Except SqlError (List JunctionRow) :=
  if target ∈ uniq then
    if tbl.any (fun r => rowsAgree target r row) then Except.ok tbl
    else Except.ok (tbl ++ [row])
  else Except.error SqlError.conflictTargetMismatch

/-- The junction insert loop of `DB.InsertReport` from index `idx` on: each
unit key is inserted with the conflict target `(report_id, report_unit_id)`
exactly as written in the source. -/
def insertJunctionRowsFrom (uniq : List JunctionCols) (reportId : Int) :
    Nat → List Bytes → List JunctionRow → Except SqlError (List JunctionRow)
  | _, [], tbl => pure tbl
  | idx, k :: ks, tbl => do
    let tbl' ← insertOnConflictDoNothing uniq JunctionCols.pairReportUnit tbl
      ⟨reportId, k, idx⟩
    insertJunctionRowsFrom uniq reportId (idx + 1) ks tbl'

/-- The junction insert loop of `DB.InsertReport` (database/reports.go lines
41-51), starting at unit index 0. -/
def insertJunctionRows (uniq : List JunctionCols) (reportId : Int)
    (keys : List Bytes) (tbl : List JunctionRow) :
    Except SqlError (List JunctionRow) :=
  insertJunctionRowsFrom uniq reportId 0 keys tbl

/-- C4 (code bug): under the authoritative v2 schema, whose only unique
constraint is the triple primary key, the source's conflict target
`(report_id, report_unit_id)` matches no unique constraint, so the very
first junction insert — here report 1 with a single unit key — fails instead
of silently ignoring duplicates; the same statement succeeds against the v1
schema the conflict target was written for. -/
theorem c4_junction_insert_fails_under_v2 :
    insertJunctionRows v2UniqueConstraints 1 [[0]] [] =
      Except.error SqlError.conflictTargetMismatch ∧
    insertJunctionRows v1UniqueConstraints 1 [[0]] [] =
      Except.ok [⟨1, [0], 0⟩] := by
  constructor
  · rfl
  · rfl

/-! ## Legacy report conversion (C9)

`objdiff/legacy.go`: the legacy JSON schema is converted to the report
message.  Float32 fields are modelled as rationals; the protobuf-generated
item and unit messages (external `report.proto`) are modelled with exactly
the fields `convert` populates. -/

/-- `objdiff.legacyReportItem`. -/
structure LegacyReportItem where
  name : String
  demangledName : Option String
  address : Option String
  size : Nat
  fuzzyMatchPercent : Rat
deriving DecidableEq, Repr

/-- `objdiff.legacyReportUnit`. -/
structure LegacyReportUnit where
  name : String
  fuzzyMatchPercent : Rat
  totalCode : Nat
  matchedCode : Nat
  totalData : Nat
  matchedData : Nat
  totalFunctions : Nat
  matchedFunctions : Nat
  complete : Option Bool
  moduleName : Option String
  moduleId : Option Nat
  sections : List LegacyReportItem
  functions : List LegacyReportItem
deriving DecidableEq, Repr

/-- The protobuf `ReportItem` message, restricted to the fields
`legacyReportItem.convert` populates; `address` is optional (a nil-able
pointer in Go). -/
structure ReportItem where
  name : String
  demangledName : Option String
  address : Option Nat
  size : Nat
  fuzzyMatchPercent : Rat
deriving DecidableEq, Repr

/-- The protobuf `ReportUnit` message, restricted to the fields
`legacyReportUnit.convert` populates. -/
structure ReportUnitMsg where
  name : String
  fuzzyMatchPercent : Rat
  totalCode : Nat
  matchedCode : Nat
  totalData : Nat
  matchedData : Nat
  totalFunctions : Nat
  matchedFunctions : Nat
  complete : Option Bool
  moduleName : Option String
  moduleId : Option Nat
  sections : List ReportItem
  functions : List ReportItem
deriving DecidableEq, Repr

/-- A digit as accepted by `strconv.ParseUint`: `0-9`, `a-z`, `A-Z`. -/
def digitValue (c : Char) : Option Nat :=
  if '0' ≤ c ∧ c ≤ '9' then some (c.toNat - '0'.toNat)
  else if 'a' ≤ c ∧ c ≤ 'z' then some (c.toNat - 'a'.toNat + 10)
  else if 'A' ≤ c ∧ c ≤ 'Z' then some (c.toNat - 'A'.toNat + 10)
  else none

/-- Outcome of `strconv.ParseUint`. -/
inductive ParseUintResult
  | ok (n : Nat)
  | invalidDigit
  | outOfRange
deriving DecidableEq, Repr

/-- The accumulation loop of `strconv.ParseUint(s, base, 64)`: digits are
folded left to right; an invalid character is a syntax error; exceeding the
64-bit range is a range error detected before the multiply (cutoff check)
or after the add. -/
def parseUintLoop (base : Nat) : List Char → Nat → ParseUintResult
  | [], n => ParseUintResult.ok n
  | c :: cs, n =>
    match digitValue c with
    | none => ParseUintResult.invalidDigit
    | some d =>
      if d ≥ base then ParseUintResult.invalidDigit
      else if n ≥ (2 ^ 64 - 1) / base + 1 then ParseUintResult.outOfRange
      else if n * base + d > 2 ^ 64 - 1 then ParseUintResult.outOfRange
      else parseUintLoop base cs (n * base + d)

/-- `strconv.ParseUint(s, base, 64)`: the empty string is a syntax error. -/
def parseUintGo (base : Nat) (s : List Char) : ParseUintResult :=
  match s with
  | [] => ParseUintResult.invalidDigit
  | _ => parseUintLoop base s 0

/-- The value `strconv.ParseUint` returns when its error is discarded
(`address, _ = strconv.ParseUint(...)`): 0 on a syntax error, the maximum
64-bit value on a range error. -/
def parseUintValue (base : Nat) (s : List Char) : Nat :=
  match parseUintGo base s with
  | ParseUintResult.ok n => n
  | ParseUintResult.invalidDigit => 0
  | ParseUintResult.outOfRange => 2 ^ 64 - 1

/-- The address computation of `legacyReportItem.convert` (objdiff/legacy.go
lines 93-101): 0 when the legacy item has no address; hex after a `0x`
prefix, else decimal, with the parse error discarded. -/
def legacyAddressValue (address : Option String) : Nat :=
  match address with
  | none => 0
  | some s =>
    if s.startsWith "0x" then parseUintValue 16 ((s.drop 2).toList)
    else parseUintValue 10 s.toList

/-- `legacyReportItem.convert` (objdiff/legacy.go lines 92-109): note that
the result's address is `&address` — always present. -/
def legacyReportItemConvert (i : LegacyReportItem) : ReportItem :=
  { name := i.name
    demangledName := i.demangledName
    address := some (legacyAddressValue i.address)
    size := i.size
    fuzzyMatchPercent := i.fuzzyMatchPercent }

/-- `legacyReportUnit.convert` (objdiff/legacy.go lines 67-90). -/
def legacyReportUnitConvert (u : LegacyReportUnit) : ReportUnitMsg :=
  { name := u.name
    fuzzyMatchPercent := u.fuzzyMatchPercent
    totalCode := u.totalCode
    matchedCode := u.matchedCode
    totalData := u.totalData
    matchedData := u.matchedData
    totalFunctions := u.totalFunctions
    matchedFunctions := u.matchedFunctions
    complete := u.complete
    moduleName := u.moduleName
    moduleId := u.moduleId
    sections := u.sections.map legacyReportItemConvert
    functions := u.functions.map legacyReportItemConvert }

/-- C9 (counterexample): a legacy item with no address field does not
convert to an item with no address value — the converted address is present
and equal to 0. -/
theorem c9_absent_address_becomes_present :
    (legacyReportItemConvert ⟨"fn", none, none, 4, 0⟩).address = some 0 ∧
    (legacyReportItemConvert ⟨"fn", none, none, 4, 0⟩).address ≠ none := by
  constructor
  · rfl
  · simp [legacyReportItemConvert, legacyAddressValue]

/-- C9 (amended): in legacy-to-current conversion the optional fields
demangled name, module id, module name and complete flag that are absent in
the legacy input remain absent (they are carried over unchanged), but the
address is always present in the converted item: the parsed value of the
legacy string when one is there, 0 when it is absent. -/
theorem c9_optional_fields_preserved_except_address (u : LegacyReportUnit)
    (i : LegacyReportItem) :
    (legacyReportUnitConvert u).complete = u.complete ∧
    (legacyReportUnitConvert u).moduleName = u.moduleName ∧
    (legacyReportUnitConvert u).moduleId = u.moduleId ∧
    (legacyReportUnitConvert u).sections =
      u.sections.map legacyReportItemConvert ∧
    (legacyReportUnitConvert u).functions =
      u.functions.map legacyReportItemConvert ∧
    (legacyReportItemConvert i).demangledName = i.demangledName ∧
    (legacyReportItemConvert i).address = some (legacyAddressValue i.address) :=
  ⟨rfl, rfl, rfl, rfl, rfl, rfl, rfl⟩

/-! ## `Measures.CalcMatchedPercent` (C10)

`common/report.go` lines 29-42; the float32 percent fields and the float32
arithmetic are modelled over the rationals. -/

/-- The scalar fields of the protobuf `Measures` message that
`CalcMatchedPercent` reads and writes. -/
structure Measures where
  matchedCodePercent : Rat
  matchedDataPercent : Rat
  matchedFunctionsPercent : Rat
  totalCode : Nat
  matchedCode : Nat
  totalData : Nat
  matchedData : Nat
  totalFunctions : Nat
  matchedFunctions : Nat
deriving DecidableEq, Repr

/-- `Measures.CalcMatchedPercent`: each percent field is set to 100 and then
overwritten with matched/total*100 only when the corresponding total is
non-zero, so the division is never executed on a zero total. -/
def calcMatchedPercent (m : Measures) : Measures :=
  let m1 := { m with matchedCodePercent := 100 }
  let m2 :=
    if m1.totalCode ≠ 0 then
      { m1 with matchedCodePercent :=
          (m1.matchedCode : Rat) / (m1.totalCode : Rat) * 100 }
    else m1
  let m3 := { m2 with matchedDataPercent := 100 }
  let m4 :=
    if m3.totalData ≠ 0 then
      { m3 with matchedDataPercent :=
          (m3.matchedData : Rat) / (m3.totalData : Rat) * 100 }
    else m3
  let m5 := { m4 with matchedFunctionsPercent := 100 }
  if m5.totalFunctions ≠ 0 then
    { m5 with matchedFunctionsPercent :=
        (m5.matchedFunctions : Rat) / (m5.totalFunctions : Rat) * 100 }
  else m5

/-- C10: `CalcMatchedPercent` never divides by a zero total — each
matched-percent field equals 100 when its total is 0 and matched/total*100
otherwise. -/
theorem c10_calc_matched_percent_total_zero (m : Measures) :
    ((calcMatchedPercent m).matchedCodePercent =
      if m.totalCode = 0 then 100
      else (m.matchedCode : Rat) / (m.totalCode : Rat) * 100) ∧
    ((calcMatchedPercent m).matchedDataPercent =
      if m.totalData = 0 then 100
      else (m.matchedData : Rat) / (m.totalData : Rat) * 100) ∧
    ((calcMatchedPercent m).matchedFunctionsPercent =
      if m.totalFunctions = 0 then 100
      else (m.matchedFunctions : Rat) / (m.totalFunctions : Rat) * 100) := by
  by_cases hc : m.totalCode = 0 <;> by_cases hd : m.totalData = 0 <;>
    by_cases hf : m.totalFunctions = 0 <;>
    simp [calcMatchedPercent, hc, hd, hf]

/-! ## The artifact-name regular expression (C8)

`objdiff/artifacts.go` line 25 (current version of the ingester):

  var artifactNameRegex = regexp.MustCompile(
    `^(?P<version>[A-z0-9_\-]+)[_-]report(?:[_-].*)?$`)

The pattern is anchored at both ends; the version group is a greedy `+` over
a character class, followed by a `[_-]` separator, the literal `report`, and
an optional `[_-].*` tail. -/

/-- The character class `[A-z0-9_\-]` as written in the source: the range
`A-z` spans codepoints 65..122 and therefore also contains the punctuation
between `Z` and `a`. -/
def classGo (c : Char) : Bool :=
  ('A' ≤ c && c ≤ 'z') || ('0' ≤ c && c ≤ '9') || c == '_' || c == '-'

/-- The character class `[A-Za-z0-9_\-]` that the spec sentence names. -/
def classSpec (c : Char) : Bool :=
  ('A' ≤ c && c ≤ 'Z') || ('a' ≤ c && c ≤ 'z') || ('0' ≤ c && c ≤ '9') ||
    c == '_' || c == '-'

/-- A `[_-]` separator character. -/
def isSep (c : Char) : Bool := c == '_' || c == '-'

/-- The optional tail `(?:[_-].*)?$`: empty, or a separator followed by
anything. -/
def tailMatches (t : List Char) : Bool :=
  match t with
  | [] => true
  | c :: _ => isSep c

/-- The suffix `[_-]report(?:[_-].*)?$` that must follow the version
group. -/
def afterVersionMatches (s : List Char) : Bool :=
  match s with
  | [] => false
  | c :: rest =>
    isSep c && rest.take 6 == "report".toList && tailMatches (rest.drop 6)

/-- Whether a version group of length exactly `k` works at the front of
`s`: nonempty, all characters in the class, and the rest of the name
matching the suffix pattern. -/
def versionLenOk (cls : Char → Bool) (s : List Char) (k : Nat) : Bool :=
  decide (0 < k) && (s.take k).all cls && afterVersionMatches (s.drop k)

/-- The greedy search for the version group: candidate lengths are tried
from the longest down, matching the leftmost-first semantics of a greedy
`+` in an anchored pattern. -/
def bestVersionLen (cls : Char → Bool) (s : List Char) : Nat → Option Nat
  | 0 => none
  | k + 1 =>
    if versionLenOk cls s (k + 1) then some (k + 1)
    else bestVersionLen cls s k

/-- `artifactNameRegex.FindStringSubmatch` followed by the `version` group
extraction, for a generic character class: `none` when the name does not
match, otherwise the captured version. -/
def versionCapture (cls : Char → Bool) (s : List Char) : Option (List Char) :=
  (bestVersionLen cls s s.length).map (fun k => s.take k)

/-- The version extraction of the ingester as implemented (class
`[A-z0-9_\-]`). -/
def artifactVersion (s : List Char) : Option (List Char) :=
  versionCapture classGo s

/-- The version extraction the spec sentence describes (class
`[A-Za-z0-9_\-]`). -/
def specArtifactVersion (s : List Char) : Option (List Char) :=
  versionCapture classSpec s

/-- The language of the anchored pattern
`^(cls+)[_-]report(?:[_-].*)?$`, stated declaratively. -/
def MatchesNamePattern (cls : Char → Bool) (s : List Char) : Prop :=
  ∃ v sep rest, s = v ++ sep :: ("report".toList ++ rest) ∧
    v ≠ [] ∧ (∀ c ∈ v, cls c = true) ∧ isSep sep = true ∧
    (rest = [] ∨ ∃ c t, rest = c :: t ∧ isSep c = true)

/-- A successful candidate length decomposes the name into version,
separator, the literal `report`, and a valid tail. -/
theorem versionLenOk_decomposition (cls : Char → Bool) (s : List Char)
    (k : Nat) (hk : versionLenOk cls s k = true) :
    ∃ v sep rest, s = v ++ sep :: ("report".toList ++ rest) ∧
      v = s.take k ∧ v.length = k ∧ v ≠ [] ∧ (∀ c ∈ v, cls c = true) ∧
      isSep sep = true ∧
      (rest = [] ∨ ∃ c t, rest = c :: t ∧ isSep c = true) := by
  simp only [versionLenOk, Bool.and_eq_true, decide_eq_true_eq] at hk
  obtain ⟨⟨hpos, hall⟩, hafter⟩ := hk
  cases hdrop : s.drop k with
  | nil => rw [hdrop] at hafter; simp [afterVersionMatches] at hafter
  | cons sep rest0 =>
    rw [hdrop] at hafter
    simp only [afterVersionMatches, Bool.and_eq_true, beq_iff_eq] at hafter
    obtain ⟨⟨hsep, hrep⟩, htail⟩ := hafter
    have hklen : k ≤ s.length := by
      by_contra hgt
      push_neg at hgt
      have : s.drop k = [] := List.drop_eq_nil_of_le (le_of_lt hgt)
      rw [this] at hdrop
      exact List.noConfusion hdrop
    have hs : s = s.take k ++ sep :: rest0 := by
      rw [← hdrop]; exact (List.take_append_drop k s).symm
    have hrest0 : rest0 = "report".toList ++ rest0.drop 6 := by
      conv_lhs => rw [← List.take_append_drop 6 rest0]
      rw [hrep]
    refine ⟨s.take k, sep, rest0.drop 6, ?_, rfl, ?_, ?_, ?_, hsep, ?_⟩
    · calc s = s.take k ++ s.drop k := (List.take_append_drop k s).symm
        _ = s.take k ++ sep :: rest0 := by rw [hdrop]
        _ = s.take k ++ sep :: ("report".toList ++ rest0.drop 6) := by
            rw [← hrest0]
    · rw [List.length_take]; omega
    · intro hnil
      have := congrArg List.length hnil
      rw [List.length_take] at this
      simp only [List.length_nil] at this
      omega
    · intro c hc
      exact List.all_eq_true.mp hall c hc
    · cases htl : rest0.drop 6 with
      | nil => exact Or.inl rfl
      | cons c t =>
        rw [htl] at htail
        simp [tailMatches] at htail
        exact Or.inr ⟨c, t, rfl, htail⟩

/-- Conversely, a pattern decomposition yields a successful candidate
length. -/
theorem versionLenOk_of_decomposition (cls : Char → Bool) (v : List Char)
    (sep : Char) (rest : List Char) (hv : v ≠ [])
    (hall : ∀ c ∈ v, cls c = true) (hsep : isSep sep = true)
    (htail : rest = [] ∨ ∃ c t, rest = c :: t ∧ isSep c = true) :
    versionLenOk cls (v ++ sep :: ("report".toList ++ rest)) v.length = true := by
  have htake : (v ++ sep :: ("report".toList ++ rest)).take v.length = v :=
    List.take_left' rfl
  have hdrop : (v ++ sep :: ("report".toList ++ rest)).drop v.length =
      sep :: ("report".toList ++ rest) :=
    List.drop_left' rfl
  simp only [versionLenOk, htake, hdrop, Bool.and_eq_true, decide_eq_true_eq]
  refine ⟨⟨?_, ?_⟩, ?_⟩
  · cases v with
    | nil => exact absurd rfl hv
    | cons a l => simp
  · exact List.all_eq_true.mpr hall
  · simp only [afterVersionMatches, Bool.and_eq_true, beq_iff_eq]
    refine ⟨⟨hsep, by simp⟩, ?_⟩
    have : ("report".toList ++ rest).drop 6 = rest := by
      have : ("report".toList).length = 6 := by rfl
      exact List.drop_left' this
    rw [this]
    rcases htail with h | ⟨c, t, hct, hc⟩
    · simp [h, tailMatches]
    · simp [hct, tailMatches, hc]

/-- `bestVersionLen` finds a candidate length iff one exists below the
fuel, and the one it finds is the largest. -/
theorem bestVersionLen_spec (cls : Char → Bool) (s : List Char) :
    ∀ n,
      (∀ k, bestVersionLen cls s n = some k →
        0 < k ∧ k ≤ n ∧ versionLenOk cls s k = true ∧
        ∀ j, k < j → j ≤ n → versionLenOk cls s j = false) ∧
      (bestVersionLen cls s n = none →
        ∀ j, 0 < j → j ≤ n → versionLenOk cls s j = false) := by
  intro n
  induction n with
  | zero =>
    constructor
    · intro k hk; simp [bestVersionLen] at hk
    · intro _ j hj hjn; omega
  | succ m ih =>
    constructor
    · intro k hk
      by_cases hok : versionLenOk cls s (m + 1) = true
      · simp [bestVersionLen, hok] at hk
        subst hk
        exact ⟨by omega, le_refl _, hok, fun j hj hjn => by omega⟩
      · simp only [bestVersionLen, hok, if_false, Bool.false_eq_true] at hk
        obtain ⟨hpos, hle, hvk, hmax⟩ := ih.1 k hk
        refine ⟨hpos, by omega, hvk, ?_⟩
        intro j hj hjn
        rcases Nat.lt_or_ge j (m + 1) with hlt | hge
        · exact hmax j hj (by omega)
        · have : j = m + 1 := by omega
          subst this
          exact Bool.not_eq_true _ ▸ (by simpa using hok)
    · intro hnone j hj hjn
      by_cases hok : versionLenOk cls s (m + 1) = true
      · simp [bestVersionLen, hok] at hnone
      · simp only [bestVersionLen, hok, if_false, Bool.false_eq_true] at hnone
        rcases Nat.lt_or_ge j (m + 1) with hlt | hge
        · exact ih.2 hnone j hj (by omega)
        · have : j = m + 1 := by omega
          subst this
          exact Bool.not_eq_true _ ▸ (by simpa using hok)

/-- Candidate lengths never exceed the name's length (the suffix needs at
least one character after the version). -/
theorem versionLenOk_le_length (cls : Char → Bool) (s : List Char) (k : Nat)
    (hk : versionLenOk cls s k = true) : k < s.length := by
  simp only [versionLenOk, Bool.and_eq_true, decide_eq_true_eq] at hk
  obtain ⟨⟨hpos, _⟩, hafter⟩ := hk
  by_contra hge
  push_neg at hge
  have : s.drop k = [] := List.drop_eq_nil_of_le hge
  rw [this] at hafter
  simp [afterVersionMatches] at hafter

/-- The executable matcher recognizes exactly the language of the anchored
pattern. -/
theorem versionCapture_isSome_iff (cls : Char → Bool) (s : List Char) :
    (versionCapture cls s).isSome = true ↔ MatchesNamePattern cls s := by
  constructor
  · intro hsome
    simp only [versionCapture, Option.isSome_map] at hsome
    cases hbest : bestVersionLen cls s s.length with
    | none => rw [hbest] at hsome; simp at hsome
    | some k =>
      obtain ⟨_, _, hok, _⟩ := (bestVersionLen_spec cls s s.length).1 k hbest
      obtain ⟨v, sep, rest, hsplit, _, _, hv, hall, hsep, htail⟩ :=
        versionLenOk_decomposition cls s k hok
      exact ⟨v, sep, rest, hsplit, hv, hall, hsep, htail⟩
  · rintro ⟨v, sep, rest, hsplit, hv, hall, hsep, htail⟩
    have hok := versionLenOk_of_decomposition cls v sep rest hv hall hsep htail
    rw [← hsplit] at hok
    have hlen : v.length ≤ s.length := by
      subst hsplit; simp
    cases hbest : bestVersionLen cls s s.length with
    | none =>
      have := (bestVersionLen_spec cls s s.length).2 hbest v.length
        (by cases v with
          | nil => exact absurd rfl hv
          | cons a l => simp) hlen
      rw [this] at hok
      exact Bool.noConfusion hok
    | some k => simp [versionCapture, hbest]

/-- C8 (counterexample): the artifact name `[_report` — `[` lies in the
source's `A-z` range but not in the claimed `[A-Za-z0-9_\-]` class — is
matched by the ingester with version `[`, while the regular expression the
claim states does not match it at all, so the artifact would have to be
skipped. -/
theorem c8_regex_class_counterexample :
    artifactVersion "[_report".toList = some "[".toList ∧
    specArtifactVersion "[_report".toList = none := by
  constructor
  · rfl
  · rfl

/-- C8 (amended): the ingester matches artifact names against
`^(?P<version>[A-z0-9_\-]+)[_-]report(?:[_-].*)?$` — the class `A-z` also
admitting the punctuation between `Z` and `a` — extracting as version the
longest class prefix that leaves a valid suffix, and treats exactly the
non-matching names as skipped (the matcher returns no capture for them). -/
theorem c8_artifact_name_regex :
    (∀ s, (artifactVersion s).isSome = true ↔ MatchesNamePattern classGo s) ∧
    (∀ s v, artifactVersion s = some v →
      v = s.take v.length ∧ versionLenOk classGo s v.length = true ∧
      ∀ j, v.length < j → j ≤ s.length → versionLenOk classGo s j = false) := by
  constructor
  · intro s
    exact versionCapture_isSome_iff classGo s
  · intro s v hv
    simp only [artifactVersion, versionCapture, Option.map_eq_some'] at hv
    obtain ⟨k, hbest, hvk⟩ := hv
    obtain ⟨hpos, hle, hok, hmax⟩ :=
      (bestVersionLen_spec classGo s s.length).1 k hbest
    have hklen : k < s.length := versionLenOk_le_length classGo s k hok
    have hlen : v.length = k := by
      subst hvk; simp [List.length_take]; omega
    subst hvk
    exact ⟨by rw [hlen], by rw [hlen]; exact hok,
      fun j hj hjn => hmax j (by omega) hjn⟩

/-- Witness for C8 at the concrete artifact name `v1_report`: the matcher
finds a capture, so the name lies in the pattern's language. -/
theorem c8_artifact_name_regex_witness :
    MatchesNamePattern classGo "v1_report".toList :=
  (c8_artifact_name_regex.1 "v1_report".toList).mp (by rfl)

/-! ## The artifact ingester `FetchReportFiles` (C5)

`objdiff/artifacts.go` lines 175-270: for each artifact of the CI run, match
its name, on a match query the store for an existing report, on a cache hit
append the stored report and continue without any download, otherwise
download, parse and insert.  The GitHub client, the HTTP download and the
database are modelled as an environment of effectful collaborators; the
model additionally records the names of the artifacts for which a download
request was issued. -/

/-- The error paths that abort `FetchReportFiles`: a store read error
(`logger.Fatal`), a failed download URL request / HTTP request / archive
decode, or a failed insert. -/
inductive IngestError
  | storeReadFatal
  | downloadFailed
  | insertFailed
deriving DecidableEq, Repr

/-- A CI artifact, identified by its name. -/
structure Artifact where
  name : List Char
deriving DecidableEq, Repr

/-- The collaborators of `FetchReportFiles`, fixed project and commit:
`getReport` is `db.GetReport` keyed by the extracted version;
`downloadAndParse` covers `client.Actions.DownloadArtifact`, the HTTP GET
and `findReportFile` (`none` when the archive holds no report entry);
`insertReport` is `db.InsertReport`. -/
structure IngestEnv (Rep : Type) where
  getReport : List Char → Except IngestError (Option Rep)
  downloadAndParse : Artifact → Except IngestError (Option Rep)
  insertReport : List Char → Rep → Except IngestError Unit

/-- The running state of the ingest loop: the report files collected so far
(version paired with report) and the names of the artifacts downloaded so
far. -/
abbrev IngestAcc (Rep : Type) := List (List Char × Rep) × List (List Char)

/-- One iteration of the artifact loop of `FetchReportFiles`. -/
def ingestStep {Rep : Type} (env : IngestEnv Rep) (acc : IngestAcc Rep)
    (a : Artifact) : Except IngestError (IngestAcc Rep) :=
  match artifactVersion a.name with
  | none => pure acc
  | some v => do
    let existing ← env.getReport v
    match existing with
    | some rep => pure (acc.1 ++ [(v, rep)], acc.2)
    | none => do
      let parsed ← env.downloadAndParse a
      match parsed with
      | none => pure (acc.1, acc.2 ++ [a.name])
      | some rep => do
        _ ← env.insertReport v rep
        pure (acc.1 ++ [(v, rep)], acc.2 ++ [a.name])

/-- The artifact loop of `FetchReportFiles`. -/
def ingestLoop {Rep : Type} (env : IngestEnv Rep) :
    List Artifact → IngestAcc Rep → Except IngestError (IngestAcc Rep)
  | [], acc => pure acc
  | a :: arts, acc => do
    let acc' ← ingestStep env acc a
    ingestLoop env arts acc'

/-- Go's `<` on strings (lexicographic byte order), on version keys. -/
def stringLtGo : List Char → List Char → Bool
  | [], [] => false
  | [], _ :: _ => true
  | _ :: _, [] => false
  | a :: as, b :: bs =>
    if a < b then true else if b < a then false else stringLtGo as bs

/-- Insert into a list sorted ascending by version, modelling the ascending
order `sort.Slice(files, ...Version < ...Version)` establishes. -/
def insertByVersion {Rep : Type} (x : List Char × Rep) :
    List (List Char × Rep) → List (List Char × Rep)
  | [] => [x]
  | y :: ys =>
    if stringLtGo y.1 x.1 then y :: insertByVersion x ys else x :: y :: ys

/-- The final `sort.Slice` of `FetchReportFiles`, modelled as an insertion
sort by version. -/
def sortByVersion {Rep : Type} :
    List (List Char × Rep) → List (List Char × Rep)
  | [] => []
  | x :: xs => insertByVersion x (sortByVersion xs)

/-- `FetchReportFiles`: run the artifact loop from the empty state and sort
the collected files by version; the second component is the download log the
model keeps. -/
def fetchReportFiles {Rep : Type} (env : IngestEnv Rep)
    (arts : List Artifact) : Except IngestError (IngestAcc Rep) := do
  let acc ← ingestLoop env arts ([], [])
  pure (sortByVersion acc.1, acc.2)

/-- `insertByVersion` only permutes. -/
theorem insertByVersion_perm {Rep : Type} (x : List Char × Rep)
    (l : List (List Char × Rep)) : (insertByVersion x l).Perm (x :: l) := by
  induction l with
  | nil => simp [insertByVersion]
  | cons y ys ih =>
    by_cases h : stringLtGo y.1 x.1
    · simp only [insertByVersion, h, if_true]
      exact (ih.cons y).trans (List.Perm.swap x y ys)
    · simp [insertByVersion, h]

/-- `sortByVersion` only permutes. -/
theorem sortByVersion_perm {Rep : Type} (l : List (List Char × Rep)) :
    (sortByVersion l).Perm l := by
  induction l with
  | nil => simp [sortByVersion]
  | cons x xs ih =>
    exact (insertByVersion_perm x (sortByVersion xs)).trans (ih.cons x)

/-- The ingest loop only appends to both state components, and every name it
appends to the download log belongs to an artifact whose version had no
stored report. -/
theorem ingestLoop_appends {Rep : Type} (env : IngestEnv Rep) :
    ∀ (arts : List Artifact) (acc res : IngestAcc Rep),
      ingestLoop env arts acc = Except.ok res →
      (∃ df, res.1 = acc.1 ++ df) ∧
      (∃ dd, res.2 = acc.2 ++ dd ∧
        ∀ n ∈ dd, ∃ b ∈ arts, b.name = n ∧ ∃ v,
          artifactVersion b.name = some v ∧
          env.getReport v = Except.ok none) := by
  intro arts
  induction arts with
  | nil =>
    intro acc res hrun
    simp only [ingestLoop, pure, Except.pure, Except.ok.injEq] at hrun
    subst hrun
    exact ⟨⟨[], by simp⟩, [], by simp, by simp⟩
  | cons a arts ih =>
    intro acc res hrun
    cases hstep : ingestStep env acc a with
    | error e => simp [ingestLoop, hstep, bind_error_eq] at hrun
    | ok acc' =>
      simp only [ingestLoop, hstep, bind_ok_eq] at hrun
      obtain ⟨⟨df, hdf⟩, dd, hdd, hddall⟩ := ih acc' res hrun
      -- case analysis on the step
      cases hv : artifactVersion a.name with
      | none =>
        simp only [ingestStep, hv, pure, Except.pure, Except.ok.injEq] at hstep
        subst hstep
        refine ⟨⟨df, hdf⟩, dd, hdd, ?_⟩
        intro n hn
        obtain ⟨b, hb, hbn, v, hbv, hbg⟩ := hddall n hn
        exact ⟨b, List.mem_cons_of_mem a hb, hbn, v, hbv, hbg⟩
      | some v =>
        cases hget : env.getReport v with
        | error e =>
          simp [ingestStep, hv, hget, bind_error_eq] at hstep
        | ok existing =>
          cases existing with
          | some rep =>
            simp only [ingestStep, hv, hget, bind_ok_eq, pure, Except.pure,
              Except.ok.injEq] at hstep
            subst hstep
            refine ⟨⟨(v, rep) :: df, by simpa using hdf⟩, dd,
              by simpa using hdd, ?_⟩
            intro n hn
            obtain ⟨b, hb, hbn, v', hbv, hbg⟩ := hddall n hn
            exact ⟨b, List.mem_cons_of_mem a hb, hbn, v', hbv, hbg⟩
          | none =>
            cases hdl : env.downloadAndParse a with
            | error e =>
              simp [ingestStep, hv, hget, hdl, bind_ok_eq, bind_error_eq] at hstep
            | ok parsed =>
              cases parsed with
              | none =>
                simp only [ingestStep, hv, hget, hdl, bind_ok_eq, pure,
                  Except.pure, Except.ok.injEq] at hstep
                subst hstep
                refine ⟨⟨df, by simpa using hdf⟩,
                  a.name :: dd, by simpa using hdd, ?_⟩
                intro n hn
                rcases List.mem_cons.mp hn with hn | hn
                · exact ⟨a, List.mem_cons_self a arts, hn.symm, v, hv, hget⟩
                · obtain ⟨b, hb, hbn, v', hbv, hbg⟩ := hddall n hn
                  exact ⟨b, List.mem_cons_of_mem a hb, hbn, v', hbv, hbg⟩
              | some rep =>
                cases hins : env.insertReport v rep with
                | error e =>
                  simp [ingestStep, hv, hget, hdl, hins, bind_ok_eq,
                    bind_error_eq] at hstep
                | ok u =>
                  simp only [ingestStep, hv, hget, hdl, hins, bind_ok_eq, pure,
                    Except.pure, Except.ok.injEq] at hstep
                  subst hstep
                  refine ⟨⟨(v, rep) :: df, by simpa using hdf⟩,
                    a.name :: dd, by simpa using hdd, ?_⟩
                  intro n hn
                  rcases List.mem_cons.mp hn with hn | hn
                  · exact ⟨a, List.mem_cons_self a arts, hn.symm, v, hv,
                      hget⟩
                  · obtain ⟨b, hb, hbn, v', hbv, hbg⟩ := hddall n hn
                    exact ⟨b, List.mem_cons_of_mem a hb, hbn, v', hbv, hbg⟩

/-- A cache-hit artifact contributes its stored report to the collected
files. -/
theorem ingestLoop_cache_hit {Rep : Type} (env : IngestEnv Rep) (a : Artifact)
    (v : List Char) (rep : Rep)
    (hv : artifactVersion a.name = some v)
    (hstored : env.getReport v = Except.ok (some rep)) :
    ∀ (arts : List Artifact) (acc res : IngestAcc Rep), a ∈ arts →
      ingestLoop env arts acc = Except.ok res → (v, rep) ∈ res.1 := by
  intro arts
  induction arts with
  | nil => intro acc res ha; simp at ha
  | cons b arts ih =>
    intro acc res ha hrun
    cases hstep : ingestStep env acc b with
    | error e => simp [ingestLoop, hstep, bind_error_eq] at hrun
    | ok acc' =>
      simp only [ingestLoop, hstep, bind_ok_eq] at hrun
      rcases List.mem_cons.mp ha with hab | ha
    -- if the head is the cache-hit artifact, the step appends (v, rep)
      · subst hab
        have hstep' : acc' = (acc.1 ++ [(v, rep)], acc.2) := by
          simp only [ingestStep, hv, hstored, bind_ok_eq, pure, Except.pure,
            Except.ok.injEq] at hstep
          exact hstep.symm
        obtain ⟨⟨df, hdf⟩, _⟩ := ingestLoop_appends env arts acc' res hrun
        rw [hstep'] at hdf
        simp only [hdf]
        simp
      · exact ih acc' res ha hrun

/-- C5: during ingestion, an artifact whose extracted version already has a
stored report for this (project, commit) contributes the stored report to
the returned files and its name never enters the download log — no download
request is issued for it. -/
theorem c5_cache_hit_short_circuits {Rep : Type} (env : IngestEnv Rep)
    (arts : List Artifact) (files : List (List Char × Rep))
    (dls : List (List Char)) (a : Artifact) (v : List Char) (rep : Rep)
    (hrun : fetchReportFiles env arts = Except.ok (files, dls))
    (ha : a ∈ arts)
    (hv : artifactVersion a.name = some v)
    (hstored : env.getReport v = Except.ok (some rep)) :
    a.name ∉ dls ∧ (v, rep) ∈ files := by
  cases hloop : ingestLoop env arts ([], []) with
  | error e => simp [fetchReportFiles, hloop, bind_error_eq] at hrun
  | ok acc =>
    simp only [fetchReportFiles, hloop, bind_ok_eq, pure, Except.pure,
      Except.ok.injEq] at hrun
    injection hrun with h1 h2
    have hfiles : files = sortByVersion acc.1 := h1.symm
    have hdls : dls = acc.2 := h2.symm
    constructor
    · intro hmem
      rw [hdls] at hmem
      obtain ⟨_, dd, hdd, hddall⟩ := ingestLoop_appends env arts ([], []) acc hloop
      rw [hdd] at hmem
      simp only [List.nil_append] at hmem
      obtain ⟨b, _, hbn, v', hbv, hbg⟩ := hddall a.name hmem
      rw [hbn] at hbv
      rw [hv] at hbv
      cases hbv
      rw [hstored] at hbg
      exact Except.noConfusion hbg (fun h => Option.noConfusion h)
    · have hmem : (v, rep) ∈ acc.1 :=
        ingestLoop_cache_hit env a v rep hv hstored arts ([], []) acc ha hloop
      rw [hfiles]
      exact ((sortByVersion_perm acc.1).mem_iff).mpr hmem

/-- The concrete ingest environment for the C5 witness: version `v1` has a
stored report, nothing is downloadable. -/
def c5Env : IngestEnv Nat where
  getReport := fun v => if v = "v1".toList then Except.ok (some 42)
    else Except.ok none
  downloadAndParse := fun _ => Except.ok none
  insertReport := fun _ _ => Except.ok ()

/-- Witness for C5: with artifact `v1_report` cached, the run downloads
nothing and yields the stored report. -/
theorem c5_cache_hit_short_circuits_witness :
    "v1_report".toList ∉ ([] : List (List Char)) ∧
    ("v1".toList, 42) ∈ [("v1".toList, 42)] :=
  c5_cache_hit_short_circuits c5Env [⟨"v1_report".toList⟩]
    [("v1".toList, 42)] [] ⟨"v1_report".toList⟩ "v1".toList 42
    (by rfl) (by simp) (by rfl) (by rfl)

/-! ## The streaming ZIP reader (`zipstream/zipstream.go`) (C6, C7)

The byte stream is a `List Nat`; `io.ReadFull` failing for lack of bytes is
the *truncated* error family, bad signatures and unsupported features the
*malformed* family.  Multi-byte fields are little-endian. -/

/-- Little-endian value of a byte list. -/
def leVal (bs : Bytes) : Nat :=
  bs.foldr (fun b acc => b + 256 * acc) 0

/-- The errors of the reader, one constructor per `return`-with-error site:
the `truncated*` constructors are wrapped `io.ReadFull` failures
(unexpected end of input), the rest are malformed-input errors. -/
inductive ZipError
  | truncatedHeaderId
  | truncatedFileHeader
  | truncatedNameExtra
  | truncatedDescriptor
  | encryptedEntry
  | descriptorNonDeflate
  | errFormat
  | unknownMethod (m : Nat)
deriving DecidableEq, Repr

/-- Whether a reader error is of the truncated (unexpected end of input)
kind. -/
def ZipError.isTruncated : ZipError → Bool
  | ZipError.truncatedHeaderId => true
  | ZipError.truncatedFileHeader => true
  | ZipError.truncatedNameExtra => true
  | ZipError.truncatedDescriptor => true
  | _ => false

/-- The fixed fields of a local file header (26 bytes after the signature)
plus the filename and extra area. -/
structure FileHeader where
  readerVersion : Nat
  flags : Nat
  method : Nat
  modifiedTime : Nat
  modifiedDate : Nat
  crc32Sum : Nat
  compressedSize32 : Nat
  uncompressedSize32 : Nat
  name : Bytes
  extra : Bytes
deriving DecidableEq, Repr

/-- The fixed-size part and the name/extra area of `readEntry`
(zipstream.go lines 64-103): two `io.ReadFull` calls, then the ten
little-endian fields. -/
def parseFileHeader (input : Bytes) : Except ZipError (FileHeader × Bytes) :=
  if input.length < 26 then Except.error ZipError.truncatedFileHeader
  else
    let buf := input.take 26
    let rest := input.drop 26
    let filenameLen := leVal ((buf.drop 22).take 2)
    let extraAreaLen := leVal ((buf.drop 24).take 2)
    if rest.length < filenameLen + extraAreaLen then
      Except.error ZipError.truncatedNameExtra
    else
      Except.ok
        (⟨leVal (buf.take 2), leVal ((buf.drop 2).take 2),
          leVal ((buf.drop 4).take 2), leVal ((buf.drop 6).take 2),
          leVal ((buf.drop 8).take 2), leVal ((buf.drop 10).take 4),
          leVal ((buf.drop 14).take 4), leVal ((buf.drop 18).take 4),
          rest.take filenameLen,
          (rest.drop filenameLen).take extraAreaLen⟩,
         rest.drop (filenameLen + extraAreaLen))

/-- The extra-field scan of `readEntry` (zipstream.go lines 116-146): walk
`(tag, size, body)` triples; a ZIP64 field (tag 1) supplies the 64-bit
uncompressed and/or compressed size when the corresponding 32-bit value was
maxed out, with a format error when the field body is too short.  The result
is `(uncompressedSize64, compressedSize64, needCSize)`.  The loop consumes
at least 4 bytes per iteration, so fuel equal to the buffer length never
runs out before the loop's own exit conditions. -/
def scanExtraLoop : Nat → Bytes → Bool → Bool → Nat → Nat →
    Except ZipError (Nat × Nat × Bool)
  | 0, _, _, needC, u64, c64 => Except.ok (u64, c64, needC)
  | fuel + 1, ler, needU, needC, u64, c64 =>
    if ler.length < 4 then Except.ok (u64, c64, needC)
    else
      let fieldTag := leVal (ler.take 2)
      let fieldSize := leVal ((ler.drop 2).take 2)
      let after := ler.drop 4
      if after.length < fieldSize then Except.ok (u64, c64, needC)
      else
        let fieldBuf := after.take fieldSize
        let remaining := after.drop fieldSize
        if fieldTag = 1 then
          if needU then
            if fieldBuf.length < 8 then Except.error ZipError.errFormat
            else
              let u64' := leVal (fieldBuf.take 8)
              let fieldBuf' := fieldBuf.drop 8
              if needC then
                if fieldBuf'.length < 8 then Except.error ZipError.errFormat
                else
                  scanExtraLoop fuel remaining false false u64'
                    (leVal (fieldBuf'.take 8))
              else scanExtraLoop fuel remaining false needC u64' c64
          else if needC then
            if fieldBuf.length < 8 then Except.error ZipError.errFormat
            else
              scanExtraLoop fuel remaining needU false u64
                (leVal (fieldBuf.take 8))
          else scanExtraLoop fuel remaining needU needC u64 c64
        else scanExtraLoop fuel remaining needU needC u64 c64

/-- The extra-field scan, started on the whole extra area. -/
def scanExtra (extra : Bytes) (needU needC : Bool) (u64 c64 : Nat) :
    Except ZipError (Nat × Nat × Bool) :=
  scanExtraLoop extra.length extra needU needC u64 c64

/-- The sub-stream an entry exposes: `io.LimitReader` over the next
`uncompressedSize64` bytes for STORE, a DEFLATE decoder over a
`compressedSize64`-limited slice, or a DEFLATE decoder bounded only by the
DEFLATE end-of-stream marker when the compressed size is 0. -/
inductive SubStream
  | limited (n : Nat)
  | deflateLimited (n : Nat)
  | deflateUntilEOS
deriving DecidableEq, Repr

/-- The entry `readEntry` yields. -/
structure ZipEntry where
  flags : Nat
  method : Nat
  name : Bytes
  uncompressedSize64 : Nat
  compressedSize64 : Nat
  hasDescriptor : Bool
  sub : SubStream
deriving DecidableEq, Repr

/-- `Reader.readEntry` (zipstream.go lines 63-177): parse the header, reject
encrypted entries and data descriptors on non-DEFLATE entries, resolve the
64-bit sizes through the ZIP64 extra fields, fail with `zip.ErrFormat` when
the compressed size is still unknown, and build the entry's sub-stream
according to the method. -/
def readEntryGo (input : Bytes) : Except ZipError (ZipEntry × Bytes) :=
  match parseFileHeader input with
  | Except.error e => Except.error e
  | Except.ok (hdr, rest) =>
    if hdr.flags % 2 = 1 then Except.error ZipError.encryptedEntry
    else if hdr.flags / 8 % 2 = 1 ∧ hdr.method ≠ 8 then
      Except.error ZipError.descriptorNonDeflate
    else
      let needU := hdr.uncompressedSize32 = 2 ^ 32 - 1
      let needC := hdr.compressedSize32 = 2 ^ 32 - 1
      match scanExtra hdr.extra needU needC hdr.uncompressedSize32
        hdr.compressedSize32 with
      | Except.error e => Except.error e
      | Except.ok (u64, c64, needCFinal) =>
        if needCFinal then Except.error ZipError.errFormat
        else if hdr.method = 0 then
          Except.ok
            (⟨hdr.flags, hdr.method, hdr.name, u64, c64,
              hdr.flags / 8 % 2 = 1, SubStream.limited u64⟩, rest)
        else if hdr.method = 8 then
          Except.ok
            (⟨hdr.flags, hdr.method, hdr.name, u64, c64,
              hdr.flags / 8 % 2 = 1,
              if c64 > 0 then SubStream.deflateLimited c64
              else SubStream.deflateUntilEOS⟩, rest)
        else Except.error (ZipError.unknownMethod hdr.method)

/-- `readDataDescriptor` (zipstream.go lines 215-243): read 4 bytes; if they
are the descriptor signature, 12 more bytes follow, otherwise 8 more. -/
def readDataDescriptorGo (input : Bytes) : Except ZipError Bytes :=
  if input.length < 4 then Except.error ZipError.truncatedDescriptor
  else if leVal (input.take 4) = 0x08074b50 then
    if (input.drop 4).length < 12 then Except.error ZipError.truncatedDescriptor
    else Except.ok ((input.drop 4).drop 12)
  else
    if (input.drop 4).length < 8 then Except.error ZipError.truncatedDescriptor
    else Except.ok ((input.drop 4).drop 8)

/-- The outcome of `Reader.Next` (zipstream.go lines 179-213), with the
current entry already fully drained: end of the local-file section (a
central-directory signature, surfaced as `io.EOF`), an entry, or an
error. -/
inductive NextResult
  | eof
  | entry (e : ZipEntry) (rest : Bytes)
  | failed (e : ZipError)
deriving DecidableEq, Repr

/-- `Reader.Next` on a drained stream position: read the 4-byte signature
and dispatch. -/
def nextGo (input : Bytes) : NextResult :=
  if input.length < 4 then NextResult.failed ZipError.truncatedHeaderId
  else
    let headerID := leVal (input.take 4)
    if headerID = 0x04034b50 then
      match readEntryGo (input.drop 4) with
      | Except.ok (e, rest) => NextResult.entry e rest
      | Except.error err => NextResult.failed err
    else if headerID = 0x02014b50 ∨ headerID = 0x06054b50 then NextResult.eof
    else NextResult.failed ZipError.errFormat

/-- How a run of the reader ends. -/
inductive RunOutcome
  | clean
  | failed (e : ZipError)
  | deflateBody
  | fuelOut
deriving DecidableEq, Repr

/-- A driver that calls `Next` and fully reads each entry, as
`findReportFile` does with `io.ReadAll`: for a STORE entry the body is the
next `uncompressedSize64` bytes of the stream — `io.LimitReader` stops
early without error when the stream is shorter, `io.ReadAll` treats that
end of input as success.  A STORE entry never carries a data descriptor
(`readEntry` rejects that combination).  Bodies of DEFLATE entries are
decoded by the external flate library, which this driver does not model; a
run stops with `deflateBody` when it meets one.  Each entry consumes at
least four bytes of stream, so fuel equal to the number of entries plus one
suffices. -/
def runReader : Bytes → Nat → List (Bytes × Bytes) × RunOutcome
  | _, 0 => ([], RunOutcome.fuelOut)
  | input, fuel + 1 =>
    match nextGo input with
    | NextResult.eof => ([], RunOutcome.clean)
    | NextResult.failed e => ([], RunOutcome.failed e)
    | NextResult.entry e rest =>
      match e.sub with
      | SubStream.limited n =>
        let body := rest.take n
        let continued := runReader (rest.drop n) fuel
        ((e.name, body) :: continued.1, continued.2)
      | _ => ([], RunOutcome.deflateBody)

/-- The 26 fixed header bytes of a STORE entry: extract version 20, no
flags, method STORE, zero time/date/crc, compressed and uncompressed size
fields both the body length, the name length, and an empty extra area — all
little-endian. -/
def storeFixed (nameLen bodyLen : Nat) : Bytes :=
  [20, 0, 0, 0, 0, 0, 0, 0, 0, 0, 0, 0, 0, 0,
   bodyLen % 256, bodyLen / 256 % 256, bodyLen / 2 ^ 16 % 256,
   bodyLen / 2 ^ 24 % 256,
   bodyLen % 256, bodyLen / 256 % 256, bodyLen / 2 ^ 16 % 256,
   bodyLen / 2 ^ 24 % 256,
   nameLen % 256, nameLen / 256 % 256, 0, 0]

/-- The byte encoding of a complete STORE entry with the given name and
body: local-file-header signature `0x04034B50` (bytes 50 4B 03 04), the 26
fixed header bytes, the name, the body. -/
def storeEntryBlock (name body : Bytes) : Bytes :=
  80 :: 75 :: 3 :: 4 :: (storeFixed name.length body.length ++ (name ++ body))

/-- A stream consisting of the given STORE entries back to back. -/
def storeStream (blocks : List (Bytes × Bytes)) : Bytes :=
  (blocks.map (fun nb => storeEntryBlock nb.1 nb.2)).flatten

/-- Well-formedness of one STORE entry: the name length fits its 16-bit
field and the body length fits its 32-bit field without colliding with the
`0xFFFFFFFF` ZIP64 sentinel. -/
def WfStoreBlock (nb : Bytes × Bytes) : Prop :=
  nb.1.length < 2 ^ 16 ∧ nb.2.length < 2 ^ 32 - 1

/-! ## Reading STORE entries from a stream -/

/-- Parsing the fixed header bytes of a STORE entry, followed by the name
and any remainder (the remainder need not contain the full body: parsing
reads only the header and the name). -/
theorem parseFileHeader_storeFixed (bl : Nat) (name rest2 : Bytes)
    (hn : name.length < 2 ^ 16) (hbl : bl < 2 ^ 32) :
    parseFileHeader (storeFixed name.length bl ++ (name ++ rest2)) =
      Except.ok (⟨20, 0, 0, 0, 0, 0, bl, bl, name, []⟩, rest2) := by
  have hfix : (storeFixed name.length bl).length = 26 := rfl
  have htake : List.take 26 (storeFixed name.length bl ++ (name ++ rest2)) =
      storeFixed name.length bl := List.take_left' hfix
  have hdrop : List.drop 26 (storeFixed name.length bl ++ (name ++ rest2)) =
      name ++ rest2 := List.drop_left' hfix
  have hlen : (storeFixed name.length bl ++ (name ++ rest2)).length =
      26 + (name.length + rest2.length) := by
    simp [List.length_append, hfix]
  have hfl : leVal (((storeFixed name.length bl).drop 22).take 2) =
      name.length := by
    show name.length % 256 + 256 * (name.length / 256 % 256 + 256 * 0) =
      name.length
    omega
  have hel : leVal (((storeFixed name.length bl).drop 24).take 2) = 0 := rfl
  have hcs : leVal (((storeFixed name.length bl).drop 14).take 4) = bl := by
    show bl % 256 + 256 * (bl / 256 % 256 + 256 * (bl / 2 ^ 16 % 256 +
      256 * (bl / 2 ^ 24 % 256 + 256 * 0))) = bl
    omega
  have hus : leVal (((storeFixed name.length bl).drop 18).take 4) = bl := by
    show bl % 256 + 256 * (bl / 256 % 256 + 256 * (bl / 2 ^ 16 % 256 +
      256 * (bl / 2 ^ 24 % 256 + 256 * 0))) = bl
    omega
  have hname : (name ++ rest2).take name.length = name := List.take_left' rfl
  have hrest : (name ++ rest2).drop name.length = rest2 := List.drop_left' rfl
  have hnr : (name ++ rest2).length = name.length + rest2.length := by simp
  simp only [parseFileHeader, htake, hdrop, hlen, hfl, hel]
  rw [if_neg (by omega), if_neg (by omega)]
  simp only [hcs, hus, hname, Nat.add_zero, hrest]
  rfl

/-- `readEntry` on a STORE entry header: the checks pass, the extra scan is
empty, and the sub-stream is size-limited to the uncompressed size. -/
theorem readEntryGo_storeFixed (bl : Nat) (name rest2 : Bytes)
    (hn : name.length < 2 ^ 16) (hbl : bl < 2 ^ 32 - 1) :
    readEntryGo (storeFixed name.length bl ++ (name ++ rest2)) =
      Except.ok (⟨0, 0, name, bl, bl, false, SubStream.limited bl⟩, rest2) := by
  have hparse := parseFileHeader_storeFixed bl name rest2 hn (by omega)
  have hne : (decide (bl = 4294967295)) = false := by
    simp only [decide_eq_false_iff_not]
    omega
  have hscan : scanExtra ([] : Bytes) false false bl bl =
      Except.ok (bl, bl, false) := rfl
  simp only [readEntryGo, hparse]
  simp [hne, hscan]

/-- `Next` on a STORE entry at the head of the stream. -/
theorem nextGo_storeFixed (bl : Nat) (name rest2 : Bytes)
    (hn : name.length < 2 ^ 16) (hbl : bl < 2 ^ 32 - 1) :
    nextGo (80 :: 75 :: 3 :: 4 ::
        (storeFixed name.length bl ++ (name ++ rest2))) =
      NextResult.entry ⟨0, 0, name, bl, bl, false, SubStream.limited bl⟩
        rest2 := by
  have hre := readEntryGo_storeFixed bl name rest2 hn hbl
  have ht4 : (80 :: 75 :: 3 :: 4 ::
      (storeFixed name.length bl ++ (name ++ rest2))).take 4 =
      [80, 75, 3, 4] := rfl
  have hd4 : (80 :: 75 :: 3 :: 4 ::
      (storeFixed name.length bl ++ (name ++ rest2))).drop 4 =
      storeFixed name.length bl ++ (name ++ rest2) := rfl
  have hsig : leVal [80, 75, 3, 4] = 0x04034b50 := rfl
  simp only [nextGo, ht4, hd4, hsig, hre]
  rw [if_neg (by simp)]
  simp

/-- One-step unfolding of the driver. -/
theorem runReader_succ (input : Bytes) (fuel : Nat) :
    runReader input (fuel + 1) =
      match nextGo input with
      | NextResult.eof => ([], RunOutcome.clean)
      | NextResult.failed e => ([], RunOutcome.failed e)
      | NextResult.entry e rest =>
        match e.sub with
        | SubStream.limited n =>
          ((e.name, rest.take n) :: (runReader (rest.drop n) fuel).1,
            (runReader (rest.drop n) fuel).2)
        | _ => ([], RunOutcome.deflateBody) := rfl

/-- The driver on a complete STORE entry followed by the rest of the
stream: the entry is yielded with its full body and the run continues. -/
theorem runReader_storeBlock_cons (name body tail : Bytes) (fuel : Nat)
    (hn : name.length < 2 ^ 16) (hb : body.length < 2 ^ 32 - 1) :
    runReader (storeEntryBlock name body ++ tail) (fuel + 1) =
      ((name, body) :: (runReader tail fuel).1, (runReader tail fuel).2) := by
  have heq : storeEntryBlock name body ++ tail =
      80 :: 75 :: 3 :: 4 ::
        (storeFixed name.length body.length ++ (name ++ (body ++ tail))) := by
    simp [storeEntryBlock, List.append_assoc]
  have hnext := nextGo_storeFixed body.length name (body ++ tail) hn hb
  have htb : (body ++ tail).take body.length = body := List.take_left' rfl
  have hdb : (body ++ tail).drop body.length = tail := List.drop_left' rfl
  rw [heq, runReader_succ, hnext]
  simp only [htb, hdb]

/-- The driver on a stream of complete STORE entries followed by anything:
all entries are yielded in order with their bodies, then the run continues
on the remainder. -/
theorem runReader_storeStream (blocks : List (Bytes × Bytes)) (tail : Bytes)
    (fuel : Nat) (hwf : ∀ nb ∈ blocks, WfStoreBlock nb) :
    runReader (storeStream blocks ++ tail) (blocks.length + fuel) =
      (blocks ++ (runReader tail fuel).1, (runReader tail fuel).2) := by
  induction blocks with
  | nil =>
    simp [storeStream]
  | cons nb blocks ih =>
    obtain ⟨hn, hb⟩ := hwf nb (List.mem_cons_self nb blocks)
    have hss : storeStream (nb :: blocks) ++ tail =
        storeEntryBlock nb.1 nb.2 ++ (storeStream blocks ++ tail) := by
      simp [storeStream, List.append_assoc]
    have hlen : (nb :: blocks).length + fuel = (blocks.length + fuel) + 1 := by
      simp [List.length_cons]
      omega
    rw [hss, hlen,
      runReader_storeBlock_cons nb.1 nb.2 (storeStream blocks ++ tail)
        (blocks.length + fuel) hn hb,
      ih (fun b hbm => hwf b (List.mem_cons_of_mem nb hbm))]
    simp

/-- Parsing fails with the truncated name-area error when the bytes after
the fixed header are fewer than the recorded name length. -/
theorem parseFileHeader_shortName (n2 bl : Nat) (Y : Bytes)
    (hn : n2 < 2 ^ 16) (hY : Y.length < n2) :
    parseFileHeader (storeFixed n2 bl ++ Y) =
      Except.error ZipError.truncatedNameExtra := by
  have hfix : (storeFixed n2 bl).length = 26 := rfl
  have htake : List.take 26 (storeFixed n2 bl ++ Y) = storeFixed n2 bl :=
    List.take_left' hfix
  have hdrop : List.drop 26 (storeFixed n2 bl ++ Y) = Y :=
    List.drop_left' hfix
  have hlen : (storeFixed n2 bl ++ Y).length = 26 + Y.length := by
    simp [List.length_append, hfix]
  have hfl : leVal (((storeFixed n2 bl).drop 22).take 2) = n2 := by
    show n2 % 256 + 256 * (n2 / 256 % 256 + 256 * 0) = n2
    omega
  have hel : leVal (((storeFixed n2 bl).drop 24).take 2) = 0 := rfl
  simp only [parseFileHeader, htake, hdrop, hlen, hfl, hel]
  rw [if_neg (by omega), if_pos (by omega)]

/-- The entry block's total length. -/
theorem storeEntryBlock_length (name body : Bytes) :
    (storeEntryBlock name body).length = 30 + name.length + body.length := by
  simp [storeEntryBlock, storeFixed]
  omega

/-- The driver on a stream cut inside the k-th entry's local header (before
the body begins): no entry is yielded and a truncated-kind error
surfaces. -/
theorem runReader_store_truncated_header (name body : Bytes) (c fuel : Nat)
    (hn : name.length < 2 ^ 16) (hb : body.length < 2 ^ 32 - 1)
    (hc : c < 30 + name.length) :
    ∃ e, runReader ((storeEntryBlock name body).take c) (fuel + 1) =
      ([], RunOutcome.failed e) ∧ e.isTruncated = true := by
  have hblock : (storeEntryBlock name body).length =
      30 + name.length + body.length := storeEntryBlock_length name body
  have hclen : ((storeEntryBlock name body).take c).length = c := by
    rw [List.length_take]
    simp only [hblock]
    omega
  have hfix26 : (storeFixed name.length body.length).length = 26 := rfl
  rcases Nat.lt_or_ge c 4 with h4 | h4
  · -- cut inside the 4-byte signature
    refine ⟨ZipError.truncatedHeaderId, ?_, rfl⟩
    have hnx : nextGo ((storeEntryBlock name body).take c) =
        NextResult.failed ZipError.truncatedHeaderId := by
      simp only [nextGo, hclen]
      rw [if_pos (by omega)]
    rw [runReader_succ, hnx]
  · -- the signature is complete; the 26 header bytes or the name are cut
    have ht4 : ((storeEntryBlock name body).take c).take 4 =
        [80, 75, 3, 4] := by
      rw [List.take_take]
      have h44 : min 4 c = 4 := by omega
      rw [h44]
      rfl
    have hsig : leVal [80, 75, 3, 4] = 0x04034b50 := rfl
    have hd4 : ((storeEntryBlock name body).take c).drop 4 =
        (storeFixed name.length body.length ++ (name ++ body)).take (c - 4) := by
      rw [List.drop_take]
      rfl
    rcases Nat.lt_or_ge c 30 with h30 | h30
    · -- cut inside the 26 fixed header bytes
      refine ⟨ZipError.truncatedFileHeader, ?_, rfl⟩
      have hplen : ((storeFixed name.length body.length ++
          (name ++ body)).take (c - 4)).length = c - 4 := by
        rw [List.length_take]
        simp only [List.length_append, hfix26]
        omega
      have hparse : parseFileHeader ((storeFixed name.length body.length ++
          (name ++ body)).take (c - 4)) =
          Except.error ZipError.truncatedFileHeader := by
        simp only [parseFileHeader, hplen]
        rw [if_pos (by omega)]
      have hnx : nextGo ((storeEntryBlock name body).take c) =
          NextResult.failed ZipError.truncatedFileHeader := by
        simp only [nextGo, hclen, ht4, hsig, hd4]
        rw [if_neg (by omega)]
        simp [readEntryGo, hparse]
      rw [runReader_succ, hnx]
    · -- header complete, cut inside the name area
      refine ⟨ZipError.truncatedNameExtra, ?_, rfl⟩
      have htk : (storeFixed name.length body.length ++
          (name ++ body)).take (c - 4) =
          storeFixed name.length body.length ++
            ((name ++ body).take (c - 30)) := by
        have h26 : c - 4 = (storeFixed name.length body.length).length +
            (c - 30) := by
          rw [hfix26]; omega
        rw [h26, List.take_append]
      have hparse : parseFileHeader ((storeFixed name.length body.length ++
          (name ++ body)).take (c - 4)) =
          Except.error ZipError.truncatedNameExtra := by
        rw [htk]
        apply parseFileHeader_shortName
        · exact hn
        · rw [List.length_take]
          simp only [List.length_append]
          omega
      have hnx : nextGo ((storeEntryBlock name body).take c) =
          NextResult.failed ZipError.truncatedNameExtra := by
        simp only [nextGo, hclen, ht4, hsig, hd4]
        rw [if_neg (by omega)]
        simp [readEntryGo, hparse]
      rw [runReader_succ, hnx]

/-- The driver on a stream cut `j` bytes into the k-th entry's STORE body:
the entry is yielded with the silently shortened body, and the truncated
error surfaces only on the following `Next` call. -/
theorem runReader_store_truncated_body (name body : Bytes) (j fuel : Nat)
    (hn : name.length < 2 ^ 16) (hb : body.length < 2 ^ 32 - 1)
    (hj : j < body.length) :
    runReader ((storeEntryBlock name body).take (30 + name.length + j))
        (fuel + 2) =
      ([(name, body.take j)],
        RunOutcome.failed ZipError.truncatedHeaderId) := by
  have hsplit : storeEntryBlock name body =
      ([80, 75, 3, 4] ++ storeFixed name.length body.length) ++
        (name ++ body) := by
    simp [storeEntryBlock]
  have h30 : ([80, 75, 3, 4] ++ storeFixed name.length body.length).length =
      30 := rfl
  have hstream : (storeEntryBlock name body).take (30 + name.length + j) =
      80 :: 75 :: 3 :: 4 ::
        (storeFixed name.length body.length ++ (name ++ body.take j)) := by
    rw [hsplit]
    have h1 : 30 + name.length + j =
        ([80, 75, 3, 4] ++ storeFixed name.length body.length).length +
          (name.length + j) := by
      rw [h30]; omega
    rw [h1, List.take_append]
    have h2 : (name ++ body).take (name.length + j) =
        name ++ body.take j := List.take_append j
    rw [h2]
    simp
  rw [hstream]
  have hnext := nextGo_storeFixed body.length name (body.take j) hn hb
  have h1 : (body.take j).take body.length = body.take j := by
    rw [List.take_take]
    have hmin : min body.length j = j := by omega
    rw [hmin]
  have h2 : (body.take j).drop body.length = [] := by
    apply List.drop_eq_nil_of_le
    rw [List.length_take]
    omega
  have h3 : runReader ([] : Bytes) (fuel + 1) =
      ([], RunOutcome.failed ZipError.truncatedHeaderId) := by
    have hnil : nextGo ([] : Bytes) =
        NextResult.failed ZipError.truncatedHeaderId := by
      simp [nextGo]
    rw [runReader_succ, hnil]
  rw [runReader_succ, hnext]
  simp only [h1, h2, h3]

/-! ## C6: unknown compressed size -/

/-- A local file header (after the signature) with method DEFLATE, the
compressed-size field holding the ZIP64 sentinel `0xFFFFFFFF`, and no extra
area: version 20, flags 0, method 8, zero time/date/crc, uncompressed size
0, name `a`. -/
def c6UnknownDeflate : Bytes :=
  [20, 0, 0, 0, 8, 0, 0, 0, 0, 0, 0, 0, 0, 0,
   255, 255, 255, 255, 0, 0, 0, 0, 1, 0, 0, 0, 97]

/-- C6 (counterexample): on a DEFLATE entry whose compressed size is
provided by neither the 32-bit header field (it holds the `0xFFFFFFFF`
sentinel) nor any ZIP64 extra field, the reader returns the format error —
it does not produce an entry bounded by the DEFLATE end-of-stream marker as
the claim states for the DEFLATE case. -/
theorem c6_unknown_size_deflate_counterexample :
    parseFileHeader c6UnknownDeflate =
      Except.ok (⟨20, 0, 8, 0, 0, 0, 4294967295, 0, [97], []⟩, []) ∧
    readEntryGo c6UnknownDeflate = Except.error ZipError.errFormat := by
  constructor
  · rfl
  · rfl

/-- C6 (amended): when the extra scan leaves the compressed size unknown
(`needCSize` still set because the 32-bit field held `0xFFFFFFFF` and no
ZIP64 field resolved it), `readEntry` fails with the format error for every
method, DEFLATE included; the end-of-stream-bounded DEFLATE sub-stream
arises instead when the resolved compressed size is known and equal to 0,
and a size-limited DEFLATE sub-stream when it is positive. -/
theorem c6_unknown_size_handling (input : Bytes) (hdr : FileHeader)
    (rest : Bytes) (u64 c64 : Nat) (needCFinal : Bool)
    (hparse : parseFileHeader input = Except.ok (hdr, rest))
    (henc : ¬(hdr.flags % 2 = 1))
    (hdesc : ¬(hdr.flags / 8 % 2 = 1 ∧ hdr.method ≠ 8))
    (hscan : scanExtra hdr.extra (decide (hdr.uncompressedSize32 = 2 ^ 32 - 1))
      (decide (hdr.compressedSize32 = 2 ^ 32 - 1)) hdr.uncompressedSize32
      hdr.compressedSize32 = Except.ok (u64, c64, needCFinal)) :
    (needCFinal = true →
      readEntryGo input = Except.error ZipError.errFormat) ∧
    (needCFinal = false → hdr.method = 8 → c64 = 0 →
      readEntryGo input = Except.ok
        (⟨hdr.flags, hdr.method, hdr.name, u64, c64,
          decide (hdr.flags / 8 % 2 = 1), SubStream.deflateUntilEOS⟩, rest)) ∧
    (needCFinal = false → hdr.method = 8 → 0 < c64 →
      readEntryGo input = Except.ok
        (⟨hdr.flags, hdr.method, hdr.name, u64, c64,
          decide (hdr.flags / 8 % 2 = 1), SubStream.deflateLimited c64⟩,
          rest)) := by
  refine ⟨?_, ?_, ?_⟩
  · intro hC
    subst hC
    simp only [readEntryGo, hparse]
    rw [if_neg henc, if_neg hdesc, hscan]
    simp
  · intro hC hm hc
    subst hC
    subst hc
    simp only [readEntryGo, hparse]
    rw [if_neg henc, if_neg hdesc, hscan]
    simp [hm]
  · intro hC hm hc
    subst hC
    simp only [readEntryGo, hparse]
    rw [if_neg henc, if_neg hdesc, hscan]
    simp [hm, hc]

/-- A DEFLATE header with compressed size 0 (and no extra area): the
size-unknown, end-of-stream-bounded case. -/
def c6DeflateEos : Bytes :=
  [20, 0, 0, 0, 8, 0, 0, 0, 0, 0, 0, 0, 0, 0,
   0, 0, 0, 0, 0, 0, 0, 0, 1, 0, 0, 0, 97]

/-- Witness for the amended C6 at a concrete DEFLATE header with compressed
size 0: the entry's sub-stream is bounded by the DEFLATE end-of-stream
marker. -/
theorem c6_unknown_size_handling_witness :
    readEntryGo c6DeflateEos = Except.ok
      (⟨0, 8, [97], 0, 0, decide ((0 : Nat) / 8 % 2 = 1),
        SubStream.deflateUntilEOS⟩, []) :=
  (c6_unknown_size_handling c6DeflateEos ⟨20, 0, 8, 0, 0, 0, 0, 0, [97], []⟩
    [] 0 0 false (by rfl) (by decide) (by decide) (by rfl)).2.1 rfl rfl rfl

/-! ## C7: truncated streams -/

/-- C7 (counterexample): a stream holding one STORE entry (name `a`, body
`1 2 3`, so k = 1) truncated at byte 33 — inside the k-th entry's body.
The claim demands that the reader yield entries 1..k-1 (none) and then
surface a truncated error on the k-th entry; instead the k-th entry is
yielded and reads successfully with a silently shortened body (2 of its 3
bytes), the truncated error surfacing only on the following `Next` call. -/
theorem c7_truncation_counterexample :
    runReader ((storeEntryBlock [97] [1, 2, 3]).take 33) 2 =
      ([([97], [1, 2])], RunOutcome.failed ZipError.truncatedHeaderId) ∧
    ([1, 2] : Bytes) ≠ [1, 2, 3] := by
  constructor
  · rfl
  · decide

/-- C7 (amended): for a stream of STORE entries truncated inside the k-th
entry, the reader yields entries 1..k-1 intact; when the cut falls inside
the k-th entry's local header (signature, fixed fields or name) a
truncated-kind error surfaces with no k-th entry; when it falls inside the
k-th entry's STORE body, the k-th entry is yielded with its body silently
cut short and the truncated (end of input) error surfaces only on the
following read. -/
theorem c7_store_stream_truncation (pre : List (Bytes × Bytes))
    (name body : Bytes) (c : Nat)
    (hpre : ∀ nb ∈ pre, WfStoreBlock nb)
    (hn : name.length < 2 ^ 16) (hb : body.length < 2 ^ 32 - 1)
    (hcut : c < (storeEntryBlock name body).length) :
    (c < 30 + name.length →
      ∃ e, runReader (storeStream pre ++ (storeEntryBlock name body).take c)
          (pre.length + 1) = (pre, RunOutcome.failed e) ∧
        e.isTruncated = true) ∧
    (30 + name.length ≤ c →
      runReader (storeStream pre ++ (storeEntryBlock name body).take c)
          (pre.length + 2) =
        (pre ++ [(name, body.take (c - (30 + name.length)))],
          RunOutcome.failed ZipError.truncatedHeaderId) ∧
      (body.take (c - (30 + name.length))).length < body.length) := by
  have hblock := storeEntryBlock_length name body
  constructor
  · intro hhdr
    obtain ⟨e, htail, htrunc⟩ :=
      runReader_store_truncated_header name body c 0 hn hb hhdr
    refine ⟨e, ?_, htrunc⟩
    have hrun := runReader_storeStream pre
      ((storeEntryBlock name body).take c) 1 hpre
    rw [hrun, htail]
    simp
  · intro hbody
    have hj : c - (30 + name.length) < body.length := by omega
    have hcj : 30 + name.length + (c - (30 + name.length)) = c := by omega
    have htail := runReader_store_truncated_body name body
      (c - (30 + name.length)) 0 hn hb hj
    rw [hcj] at htail
    have hrun := runReader_storeStream pre
      ((storeEntryBlock name body).take c) 2 hpre
    rw [hrun, htail]
    constructor
    · simp
    · rw [List.length_take]
      omega

/-- Witness for the amended C7: one intact STORE entry (`b` ↦ `9`) followed
by the entry (`a` ↦ `1 2 3`) truncated at stream byte 33 of the second
block — the first entry is yielded intact, the second with its body cut to
two bytes, and the truncated error follows. -/
theorem c7_store_stream_truncation_witness :
    runReader (storeStream [([98], [9])] ++
        (storeEntryBlock [97] [1, 2, 3]).take 33) 3 =
      ([([98], [9]), ([97], [1, 2])],
        RunOutcome.failed ZipError.truncatedHeaderId) ∧
    (2 : Nat) < 3 :=
  (c7_store_stream_truncation [([98], [9])] [97] [1, 2, 3] 33
    (by
      intro nb h
      rw [List.mem_singleton] at h
      subst h
      exact ⟨by decide, by decide⟩)
    (by decide) (by decide) (by decide)).2 (by decide)

end Decompal
